import Mathlib

/-!
Verification of the thrift-ls analyzer (Rust) against its specification.

The development shallow-embeds the analyzer sources:
  * `src/lib/analyzer/base.rs`    : positions, ranges, errors.
    The snapshot's `base.rs` is a stale revision (its `Location` has
    `line`/`column` fields and there is no `Position`/`Range.contains`);
    the `Position`/`Range`/`Location` actually used by the analyzer are
    modelled from the spec, Section 3.
  * `src/lib/analyzer/token.rs`   : `Token`, `TokenKind`, `len`,
    `from_string`, `from_char`, `Display`.
  * `src/lib/analyzer/scanner.rs` : `Scanner::scan` and its helpers.
  * `src/lib/analyzer/ast.rs`     : the AST node types.
  * `src/lib/analyzer/symbol.rs`  : `SymbolTable`.
  * `src/lib/analyzer/parser.rs`  : `Parser::parse_identifier` and the
    token-fetching helpers it uses.
  * `src/lib/analyzer/mod.rs`     : `Analyzer` (definition lookup,
    semantic tokens, static checks, `parse_document`, `sync_document`).

Machine integers (`u32`, `usize`) are modelled as `Nat`; the only place
where wrap-around is reachable is the `u32` subtraction in the semantic
token encoder, modelled explicitly by `wsub32`.  Rust index/slice panics
are modelled by `Option` results (`none` = panic).  Rust `HashMap`s whose
iteration order is never observed are modelled as association lists or as
functions; `HashSet<String>` (the `visited` set of `parse_document`) is
modelled as a duplicate-free `List String`.
-/

set_option maxRecDepth 10000

namespace Thrift

/-- Modelled from the spec, Section 3 (the snapshot's `base.rs` predates the
analyzer and lacks this type): a one-based line/column point, ordered
lexicographically. -/
structure Position where
  line : Nat
  column : Nat
deriving DecidableEq, Repr

/-- Lexicographic order on positions (derived `Ord`/`PartialOrd` in Rust). -/
def Position.le (a b : Position) : Bool :=
  a.line < b.line || (a.line == b.line && a.column ≤ b.column)

/-- Modelled from the spec, Section 3: an inclusive `[start, end]` range. -/
structure Range where
  start : Position
  stop : Position
deriving DecidableEq, Repr

/-- Modelled from the spec, Section 3: `contains(p) := start ≤ p ≤ end`. -/
def Range.contains (r : Range) (p : Position) : Bool :=
  Position.le r.start p && Position.le p r.stop

/-- Modelled from the spec, Section 4.1: the location answer of
`Analyzer::definition` (a path plus a range). -/
structure Location where
  path : String
  range : Range
deriving DecidableEq, Repr

/-- `base.rs`: `Error { range, message }`. -/
structure Error where
  range : Range
  message : String
deriving DecidableEq, Repr

/-- `token.rs`: `TokenKind`. -/
inductive TokenKind where
  | Include
  | CppInclude
  | Namespace
  | Const
  | Typedef
  | Enum
  | Struct
  | Union
  | Exception
  | Service
  | Required
  | Optional
  | Oneway
  | Void
  | Throws
  | Extends
  | Map
  | Set
  | List
  | CppType
  | Assign
  | Colon
  | Less
  | Greater
  | Lparen
  | Rparen
  | Lbrace
  | Rbrace
  | Lbrack
  | Rbrack
  | Comment (s : String)
  | BlockComment (s : String)
  | PoundComment (s : String)
  | IntConstant (s : String)
  | DoubleConstant (s : String)
  | NamespaceScope (s : String)
  | BaseType (s : String)
  | Literal (s : String)
  | Identifier (s : String)
  | ListSeparator (c : Char)
  | Invalid (c : Char)
  | InvalidString (s : String)
  | Eof
deriving DecidableEq, Repr

/-- `token.rs`: `Token { kind, position }`. -/
structure Token where
  kind : TokenKind
  position : Position
deriving DecidableEq, Repr

/-- `token.rs`: `TokenKind::len`.  Rust `String::len` is a byte count, hence
`String.utf8ByteSize` here. -/
def TokenKind.len : TokenKind → Nat
  | .Include => 7
  | .CppInclude => 11
  | .Namespace => 9
  | .Const => 5
  | .Typedef => 7
  | .Enum => 4
  | .Struct => 6
  | .Union => 5
  | .Exception => 9
  | .Service => 7
  | .Required => 8
  | .Optional => 8
  | .Oneway => 6
  | .Void => 4
  | .Throws => 6
  | .Extends => 7
  | .Map => 3
  | .Set => 3
  | .List => 4
  | .CppType => 8
  | .Assign => 1
  | .Colon => 1
  | .Less => 1
  | .Greater => 1
  | .Lparen => 1
  | .Rparen => 1
  | .Lbrace => 1
  | .Rbrace => 1
  | .Lbrack => 1
  | .Rbrack => 1
  | .Comment s => s.utf8ByteSize + 2
  | .BlockComment s => s.utf8ByteSize + 4
  | .PoundComment s => s.utf8ByteSize + 1
  | .IntConstant s => s.utf8ByteSize
  | .DoubleConstant s => s.utf8ByteSize
  | .NamespaceScope s => s.utf8ByteSize
  | .BaseType s => s.utf8ByteSize
  | .Literal s => s.utf8ByteSize + 2
  | .Identifier s => s.utf8ByteSize
  | .ListSeparator _ => 1
  | .Invalid _ => 1
  | .InvalidString s => s.utf8ByteSize
  | .Eof => 0

/-- `token.rs`: `Token::range` (`end.column += kind.len()`). -/
def Token.range (t : Token) : Range :=
  { start := t.position
    stop := { line := t.position.line, column := t.position.column + t.kind.len } }

/-- `token.rs`: `Token::is_eof`. -/
def Token.isEof (t : Token) : Bool := t.kind == TokenKind.Eof

/-- `token.rs`: `Token::is_comment`. -/
def Token.isComment (t : Token) : Bool :=
  match t.kind with
  | .Comment _ => true
  | .BlockComment _ => true
  | .PoundComment _ => true
  | _ => false

/-- `token.rs`: `Token::is_line_separator`. -/
def Token.isLineSeparatorTok (t : Token) : Bool :=
  match t.kind with
  | .ListSeparator _ => true
  | _ => false

/-- `token.rs`: `TokenKind::from_string`. -/
def TokenKind.fromString (s : String) : Option TokenKind :=
  match s with
  | "include" => some .Include
  | "cpp_include" => some .CppInclude
  | "namespace" => some .Namespace
  | "const" => some .Const
  | "typedef" => some .Typedef
  | "enum" => some .Enum
  | "struct" => some .Struct
  | "union" => some .Union
  | "exception" => some .Exception
  | "service" => some .Service
  | "required" => some .Required
  | "optional" => some .Optional
  | "oneway" => some .Oneway
  | "void" => some .Void
  | "throws" => some .Throws
  | "extends" => some .Extends
  | "map" => some .Map
  | "set" => some .Set
  | "list" => some .List
  | "cpp_type" => some .CppType
  | "c_glib" => some (.NamespaceScope "c_glib")
  | "cpp" => some (.NamespaceScope "cpp")
  | "delphi" => some (.NamespaceScope "delphi")
  | "haxe" => some (.NamespaceScope "haxe")
  | "go" => some (.NamespaceScope "go")
  | "java" => some (.NamespaceScope "java")
  | "js" => some (.NamespaceScope "js")
  | "lua" => some (.NamespaceScope "lua")
  | "netstd" => some (.NamespaceScope "netstd")
  | "perl" => some (.NamespaceScope "perl")
  | "php" => some (.NamespaceScope "php")
  | "py" => some (.NamespaceScope "py")
  | "py.twisted" => some (.NamespaceScope "py.twisted")
  | "rb" => some (.NamespaceScope "rb")
  | "st" => some (.NamespaceScope "st")
  | "xsd" => some (.NamespaceScope "xsd")
  | "rs" => some (.NamespaceScope "rs")
  | "bool" => some (.BaseType "bool")
  | "byte" => some (.BaseType "byte")
  | "i8" => some (.BaseType "i8")
  | "i16" => some (.BaseType "i16")
  | "i32" => some (.BaseType "i32")
  | "i64" => some (.BaseType "i64")
  | "double" => some (.BaseType "double")
  | "string" => some (.BaseType "string")
  | "binary" => some (.BaseType "binary")
  | "uuid" => some (.BaseType "uuid")
  | _ => none

/-- `token.rs`: `TokenKind::from_char`. -/
def TokenKind.fromChar (c : Char) : Option TokenKind :=
  match c with
  | '=' => some .Assign
  | ':' => some .Colon
  | '<' => some .Less
  | '>' => some .Greater
  | ',' => some (.ListSeparator ',')
  | ';' => some (.ListSeparator ';')
  | '(' => some .Lparen
  | ')' => some .Rparen
  | '{' => some .Lbrace
  | '}' => some .Rbrace
  | '[' => some .Lbrack
  | ']' => some .Rbrack
  | '*' => some (.NamespaceScope "*")
  | _ => none

/-- `token.rs`: the `Display` impl for `TokenKind` (`{{`/`}}` print as a
single brace). -/
def TokenKind.display : TokenKind → String
  | .Include => "include"
  | .CppInclude => "cpp_include"
  | .Namespace => "namespace"
  | .Const => "const"
  | .Typedef => "typedef"
  | .Enum => "enum"
  | .Struct => "struct"
  | .Union => "union"
  | .Exception => "exception"
  | .Service => "service"
  | .Required => "required"
  | .Optional => "optional"
  | .Oneway => "oneway"
  | .Void => "void"
  | .Throws => "throws"
  | .Extends => "extends"
  | .Map => "map"
  | .Set => "set"
  | .List => "list"
  | .CppType => "cpp_type"
  | .Assign => "="
  | .Colon => ":"
  | .Less => "<"
  | .Greater => ">"
  | .Lparen => "("
  | .Rparen => ")"
  | .Lbrace => "\x7b"
  | .Rbrace => "\x7d"
  | .Lbrack => "["
  | .Rbrack => "]"
  | .Comment s => "//" ++ s
  | .BlockComment s => "/*" ++ s ++ "*/"
  | .PoundComment s => "#" ++ s
  | .IntConstant s => s
  | .DoubleConstant s => s
  | .NamespaceScope s => s
  | .BaseType s => s
  | .Literal s => s
  | .Identifier s => s
  | .ListSeparator c => String.mk [c]
  | .Invalid c => String.mk [c]
  | .InvalidString s => s
  | .Eof => "<EOF>"

/-! ## Scanner (`scanner.rs`)

The scanner walks a `List Char` with an explicit
`(offset, line, column)` state.  Rust's unchecked slice accesses are
modelled with `sliceStr`, which returns `none` exactly when Rust would
panic; `Scanner::scan` therefore returns an `Option` whose `none` value
models a panic. -/

/-- `scanner.rs`: `ScannerState { offset, line, column }`. -/
structure ScannerState where
  offset : Nat
  line : Nat
  column : Nat
deriving DecidableEq, Repr

/-- A slice `input[a..b]` collected into a `String`; `none` models the Rust
slice panic when `a > b` or `b > input.len()`. -/
def sliceStr (input : List Char) (a b : Nat) : Option String :=
  if a ≤ b ∧ b ≤ input.length then some (String.mk ((input.drop a).take (b - a)))
  else none

/-! Every scanner loop below carries an explicit `fuel` argument standing
for the Rust `while` loop; one unit is spent per iteration, and every
wrapper passes `input.length + 1` (or more), which exceeds the number of
iterations any of these loops can perform, so the `fuel = 0` fallback arms
are unreachable.  Fuel keeps the definitions structurally recursive and
hence evaluable inside the kernel. -/

/-- `scanner.rs`: the loop of `scan_identifier` (first character already
consumed, `offset` starts at 1). -/
def scanIdentifierLoop (input : List Char) : Nat → Nat → Nat → Nat
  | 0, _, offset => offset
  | fuel + 1, pos, offset =>
    match input.get? (pos + offset) with
    | none => offset
    | some ch =>
      if ch.isAlpha ∨ ch.isDigit ∨ ch = '_' ∨ ch = '.' then
        scanIdentifierLoop input fuel pos (offset + 1)
      else offset

/-- `scanner.rs`: `scan_identifier`. -/
def scanIdentifier (input : List Char) (pos : Nat) : Nat :=
  scanIdentifierLoop input (input.length + 1) pos 1

/-- `scanner.rs`: the loop of `scan_literal`; returns
`(offset, line_offset, column_offset, closed)`. -/
def scanLiteralLoop (input : List Char) (delim : Char) :
    Nat → Nat → Nat → Nat → Nat → Char → Nat × Nat × Nat × Bool
  | 0, _, offset, lineOff, colOff, _ => (offset, lineOff, colOff, false)
  | fuel + 1, pos, offset, lineOff, colOff, prev =>
    match input.get? (pos + offset) with
    | none => (offset, lineOff, colOff, false)
    | some ch =>
      let offset' := offset + 1
      let colOff' := colOff + 1
      if ch = delim ∧ prev ≠ '\\' then (offset', lineOff, colOff', true)
      else if ch = '\n' then
        scanLiteralLoop input delim fuel pos offset' (lineOff + 1) 1 ch
      else if ch = '\r' then
        let offset'' := if input.get? (pos + offset') = some '\n' then offset' + 1 else offset'
        scanLiteralLoop input delim fuel pos offset'' (lineOff + 1) 1 ch
      else
        scanLiteralLoop input delim fuel pos offset' lineOff colOff' ch

/-- `scanner.rs`: `scan_literal`. -/
def scanLiteral (input : List Char) (pos : Nat) (delim : Char) : Nat × Nat × Nat × Bool :=
  scanLiteralLoop input delim (input.length + 1) pos 1 0 1 delim

/-- `scanner.rs`: the loop of `scan_int_constant` (`+`/`-` only allowed while
`offset = 0`). -/
def scanIntLoop (input : List Char) : Nat → Nat → Nat → Nat
  | 0, _, offset => offset
  | fuel + 1, pos, offset =>
    match input.get? (pos + offset) with
    | none => offset
    | some ch =>
      if 0 < offset ∧ (ch = '+' ∨ ch = '-') then offset
      else if ch.isDigit ∨ ch = '+' ∨ ch = '-' then scanIntLoop input fuel pos (offset + 1)
      else offset

/-- `scanner.rs`: `scan_int_constant`.  The Rust function indexes
`input[offset]` unconditionally; every call site guarantees the index is in
bounds, and the out-of-bounds case here returns `(0, false)`. -/
def scanIntConstant (input : List Char) (pos : Nat) : Nat × Bool :=
  match input.get? pos with
  | none => (0, false)
  | some c =>
    if c.isDigit ∨ c = '+' ∨ c = '-' then
      let offset := scanIntLoop input (input.length + 1) pos 0
      if 1 < offset then (offset, true)
      else (offset, ¬(c = '+' ∨ c = '-'))
    else (0, false)

/-- `scanner.rs`: the `ParseFirstDigits`/`ParseSecondDigits` states of
`scan_double_constant` (consume digits while in bounds). -/
def countDigits (input : List Char) : Nat → Nat → Nat → Nat
  | 0, _, offset => offset
  | fuel + 1, pos, offset =>
    match input.get? (pos + offset) with
    | none => offset
    | some ch => if ch.isDigit then countDigits input fuel pos (offset + 1) else offset

/-- `scanner.rs`: the trailing digit test of `scan_double_constant`. -/
def hasDigitIn (input : List Char) (pos : Nat) : Nat → Bool
  | 0 => false
  | n + 1 =>
    hasDigitIn input pos n ||
      (match input.get? (pos + n) with
       | some c => c.isDigit
       | none => false)

/-- `scanner.rs`: `scan_double_constant`.  The sequential state machine
(`ParsePlusMinus → ParseFirstDigits → ParseDot → ParseSecondDigits →
ParseE → PraseIntConstant`) advances through at most one sign, leading
digits, one dot, trailing digits, one exponent marker and an integer
exponent; the `while` bound of the Rust loop is reflected by the bounds
check before each step. -/
def scanDoubleConstant (input : List Char) (pos : Nat) : Nat × Bool :=
  match input.get? pos with
  | none => (0, false)
  | some c0 =>
    if ¬(c0.isDigit ∨ c0 = '+' ∨ c0 = '-' ∨ c0 = '.' ∨ c0 = 'e' ∨ c0 = 'E') then (0, false)
    else
      let o1 : Nat := if c0 = '+' ∨ c0 = '-' then 1 else 0
      let o2 := countDigits input (input.length + 1) pos o1
      let o3 : Nat :=
        match input.get? (pos + o2) with
        | some ch => if ch = '.' then o2 + 1 else o2
        | none => o2
      let o4 := countDigits input (input.length + 1) pos o3
      let o5 : Nat :=
        match input.get? (pos + o4) with
        | some ch => if ch = 'e' ∨ ch = 'E' then o4 + 1 else o4
        | none => o4
      let o6 : Nat :=
        match input.get? (pos + o5) with
        | none => o5
        | some _ =>
          let r := scanIntConstant input (pos + o5)
          if r.2 then o5 + r.1 else o5
      (o6, hasDigitIn input pos o6)

/-- `scanner.rs`: the loop of `scan_line_comment` after `//` has been seen;
when it is a `//` comment, the offset runs through (and includes) the
terminating newline. -/
def scanLineCommentLoop (input : List Char) : Nat → Nat → Nat → Nat
  | 0, _, offset => offset
  | fuel + 1, pos, offset =>
    match input.get? (pos + offset) with
    | none => offset
    | some ch => if ch = '\n' then offset + 1 else scanLineCommentLoop input fuel pos (offset + 1)

/-- `scanner.rs`: `scan_line_comment`. -/
def scanLineComment (input : List Char) (pos : Nat) : Nat × Bool :=
  if input.length ≤ pos + 1 ∨ input.get? (pos + 1) ≠ some '/' then (1, false)
  else (scanLineCommentLoop input (input.length + 1) pos 2, true)

/-- `scanner.rs`: the loop of `scan_pound_comment` (consumes through a
terminating `\n` or `\r\n`). -/
def scanPoundCommentLoop (input : List Char) : Nat → Nat → Nat → Nat
  | 0, _, offset => offset
  | fuel + 1, pos, offset =>
    match input.get? (pos + offset) with
    | none => offset
    | some ch =>
      if ch = '\n' then offset + 1
      else if ch = '\r' then
        if input.get? (pos + offset + 1) = some '\n' then offset + 2 else offset + 1
      else scanPoundCommentLoop input fuel pos (offset + 1)

/-- `scanner.rs`: `scan_pound_comment`. -/
def scanPoundComment (input : List Char) (pos : Nat) : Nat :=
  scanPoundCommentLoop input (input.length + 1) pos 1

mutual

/-- `scanner.rs`: `scan_block_comment`; returns
`(offset, line_offset, column_offset, ok)`.  The `fuel` argument bounds the
combined loop/nesting steps (Rust recursion plus its `while`); callers pass
more fuel than the remaining input length so exhaustion (the first arm) is
unreachable.  Note the final fall-through of the Rust loop returns `ok =
true` even though the comment was never closed. -/
def scanBlockComment (input : List Char) : Nat → Nat → Nat × Nat × Nat × Bool
  | 0, _ => (1, 0, 1, false)
  | fuel + 1, pos =>
    if input.length ≤ pos + 1 ∨ input.get? (pos + 1) ≠ some '*' then (1, 0, 1, false)
    else scanBlockLoop input fuel pos 2 0 2

/-- `scanner.rs`: the `while` loop of `scan_block_comment`. -/
def scanBlockLoop (input : List Char) : Nat → Nat → Nat → Nat → Nat → Nat × Nat × Nat × Bool
  | 0, _, offset, lineOff, colOff => (offset, lineOff, colOff, true)
  | fuel + 1, pos, offset, lineOff, colOff =>
    match input.get? (pos + offset) with
    | none => (offset, lineOff, colOff, true)
    | some ch =>
      let step : Nat × Nat × Nat :=
        if ch = '\n' then (offset + 1, lineOff + 1, 1)
        else if ch = '\r' then
          (if input.get? (pos + offset + 1) = some '\n' then offset + 2 else offset + 1,
           lineOff + 1, 1)
        else (offset + 1, lineOff, colOff + 1)
      let offset1 := step.1
      let lineOff1 := step.2.1
      let colOff1 := step.2.2
      if input.length ≤ pos + offset1 then (offset1, lineOff1, colOff1, false)
      else
        match input.get? (pos + offset1) with
        | none => (offset1, lineOff1, colOff1, false)
        | some nextCh =>
          if ch = '*' ∧ nextCh = '/' then (offset1 + 1, lineOff1, colOff1 + 1, true)
          else if ch = '/' ∧ nextCh = '*' then
            let r := scanBlockComment input fuel (pos + offset1 - 1)
            let offset2 := offset1 + r.1 - 1
            let lineOff2 := lineOff1 + r.2.1
            let colOff2 := colOff1 + r.2.2.1
            if ¬r.2.2.2 then (offset2, lineOff2, colOff2, false)
            else scanBlockLoop input fuel pos offset2 lineOff2 colOff2
          else scanBlockLoop input fuel pos offset1 lineOff1 colOff1

end

/-- `scanner.rs`: the numeric dispatch of `Scanner::scan`'s
`'+' | '-' | '0'..='9'` arm: try `scan_int_constant`; on failure, or when
the next character is `.`, `e` or `E`, try `scan_double_constant`; returns
`(offset, int_ok, double_ok)`. -/
def numericStep (input : List Char) (pos : Nat) : Nat × Bool × Bool :=
  let ri := scanIntConstant input pos
  if ¬ri.2 then
    let rd := scanDoubleConstant input pos
    (rd.1, false, rd.2)
  else
    match input.get? (pos + ri.1) with
    | some nextCh =>
      if nextCh = '.' ∨ nextCh = 'e' ∨ nextCh = 'E' then
        let rd := scanDoubleConstant input pos
        if rd.2 then (rd.1, false, true) else (rd.1, true, false)
      else (ri.1, true, false)
    | none => (ri.1, true, false)

/-- `scanner.rs`: the body of `Scanner::scan`.  Whitespace is consumed by
recursion (the Rust `while` loop), spending one fuel unit per consumed
character; every other branch produces a token.  A `none` result models a
Rust slice panic inside the corresponding branch (fuel exhaustion also
yields `none`, but `scan` passes more fuel than the input length, so that
case is unreachable). -/
def scanGo (input : List Char) : Nat → ScannerState → Option (Token × Option Error × ScannerState)
  | 0, _ => none
  | fuel + 1, st =>
    match input.get? st.offset with
    | none => some ({ kind := .Eof, position := ⟨st.line, st.column⟩ }, none, st)
    | some ch =>
      if ch = '\n' then
        scanGo input fuel ⟨st.offset + 1, st.line + 1, 1⟩
      else if ch = '\r' then
        if input.get? (st.offset + 1) = some '\n' then
          scanGo input fuel ⟨st.offset + 2, st.line + 1, 1⟩
        else
          scanGo input fuel ⟨st.offset + 1, st.line + 1, 1⟩
      else if ch = ' ' ∨ ch = '\t' then
        scanGo input fuel ⟨st.offset + 1, st.line, st.column + 1⟩
      else if ch = '/' then
        if input.length ≤ st.offset + 1 then
          some ({ kind := .Invalid ch, position := ⟨st.line, st.column⟩ }, none,
                ⟨st.offset + 1, st.line, st.column + 1⟩)
        else
          let start := st.offset
          let lc := scanLineComment input start
          if lc.2 then
            match sliceStr input (start + 2) (start + lc.1) with
            | none => none
            | some s =>
              some ({ kind := .Comment s, position := ⟨st.line, st.column⟩ }, none,
                    ⟨st.offset + lc.1, st.line + 1, 1⟩)
          else
            let bc := scanBlockComment input (2 * input.length + 4) start
            let offset := bc.1
            let lineOff := bc.2.1
            let colOff := bc.2.2.1
            let ok := bc.2.2.2
            let position : Position := ⟨st.line, st.column⟩
            let colBase : Nat := if 0 < lineOff then 0 else st.column
            let st' : ScannerState := ⟨st.offset + offset, st.line + lineOff, colBase + colOff⟩
            if ok then
              match sliceStr input (start + 2) (start + offset - 2) with
              | none => none
              | some s => some ({ kind := .BlockComment s, position := position }, none, st')
            else
              match sliceStr input start (start + offset) with
              | none => none
              | some value =>
                let tk : Token := { kind := .InvalidString value, position := position }
                some (tk, some { range := tk.range,
                                 message := "Unclosed block comment: " ++ value }, st')
      else if ch = '#' then
        let start := st.offset
        let offset := scanPoundComment input start
        match sliceStr input start (start + offset) with
        | none => none
        | some value =>
          some ({ kind := .PoundComment value, position := ⟨st.line, st.column⟩ }, none,
                ⟨st.offset + offset, st.line + 1, 1⟩)
      else if ch.isAlpha ∨ ch = '_' then
        let start := st.offset
        let offset := scanIdentifier input start
        match sliceStr input start (start + offset) with
        | none => none
        | some value =>
          let kind :=
            match TokenKind.fromString value with
            | some tok => tok
            | none => .Identifier value
          some ({ kind := kind, position := ⟨st.line, st.column⟩ }, none,
                ⟨st.offset + offset, st.line, st.column + offset⟩)
      else if ch = '\'' ∨ ch = '"' then
        let start := st.offset
        let r := scanLiteral input start ch
        let offset := r.1
        let lineOff := r.2.1
        let colOff := r.2.2.1
        let ok := r.2.2.2
        match sliceStr input (start + 1) (start + offset - 1) with
        | none => none
        | some value =>
          let position : Position := ⟨st.line, st.column⟩
          let colBase : Nat := if 0 < lineOff then 0 else st.column
          let st' : ScannerState := ⟨st.offset + offset, st.line + lineOff, colBase + colOff⟩
          if ok then
            some ({ kind := .Literal value, position := position }, none, st')
          else
            let tk : Token := { kind := .InvalidString value, position := position }
            some (tk, some { range := tk.range,
                             message := "Unclosed string: " ++ value }, st')
      else if ch = '+' ∨ ch = '-' ∨ ch.isDigit then
        let start := st.offset
        let step := numericStep input start
        let offset := step.1
        let intOk := step.2.1
        let doubleOk := step.2.2
        match sliceStr input start (start + offset) with
        | none => none
        | some value =>
          let kind : TokenKind :=
            if intOk then .IntConstant value
            else if doubleOk then .DoubleConstant value
            else .InvalidString value
          some ({ kind := kind, position := ⟨st.line, st.column⟩ }, none,
                ⟨st.offset + offset, st.line, st.column + offset⟩)
      else if ch = '.' then
        let start := st.offset
        let rd := scanDoubleConstant input start
        match sliceStr input start (start + rd.1) with
        | none => none
        | some value =>
          let kind : TokenKind :=
            if ¬rd.2 then .InvalidString value else .DoubleConstant value
          some ({ kind := kind, position := ⟨st.line, st.column⟩ }, none,
                ⟨st.offset + rd.1, st.line, st.column + rd.1⟩)
      else
        let kind : TokenKind :=
          match TokenKind.fromChar ch with
          | some tok => tok
          | none => .Invalid ch
        some ({ kind := kind, position := ⟨st.line, st.column⟩ }, none,
              ⟨st.offset + 1, st.line, st.column + 1⟩)

/-- `scanner.rs`: `Scanner::scan`. -/
def scan (input : List Char) (st : ScannerState) : Option (Token × Option Error × ScannerState) :=
  scanGo input (input.length + 1) st

/-- `scanner.rs`: `Scanner::new` starts at offset 0, line 1, column 1. -/
def initScannerState : ScannerState := ⟨0, 1, 1⟩

/-! ## AST (`ast.rs`)

The snapshot's `ast.rs` is partially stale: it declares
`ConstNode::field_type`, `FieldNode::field_type`, `TypedefNode::definition_type`
and `FunctionNode::function_type` as `Box<dyn Node>`, `ServiceNode::extends` as
`Option<String>`, and has no `FieldTypeNode` — while `symbol.rs` and `mod.rs`
pattern-match a `FieldTypeNode` enum, read `FunctionNode::function_type` as an
`Option`, and pass `ServiceNode::extends` to `check_identifier_type` /
`find_field_type_identifiers` as an `IdentifierNode`.  Modelled from the spec
(Section 3's data model, which those consumers follow): `field_type`,
`definition_type`, `key_type`, `value_type` and `type_node` are `FieldTypeNode`;
`function_type` is `Option FieldTypeNode`; `extends` is `Option IdentifierNode`;
`ConstNode::value` is a `ConstValueNode` (what `parse_const_value` builds).
Everything else — field lists, `children()` order, `split_by_first_dot`,
`position_in_namespace` — is taken from the snapshot's `ast.rs`. -/

/-- `ast.rs`: `IdentifierNode { range, name }`. -/
structure IdentifierNode where
  range : Range
  name : String
deriving DecidableEq, Repr

/-- `ast.rs`: `BaseTypeNode { range, name }`. -/
structure BaseTypeNode where
  range : Range
  name : String
deriving DecidableEq, Repr

/-- `ast.rs`: `ConstValueNode { range, value }`. -/
structure ConstValueNode where
  range : Range
  value : String
deriving DecidableEq, Repr

/-- `ast.rs`: `ExtNode { range, kv_pairs }`. -/
structure ExtNode where
  range : Range
  kvPairs : List (String × String)
deriving DecidableEq, Repr

/-- `ast.rs`: `FieldIdNode { range, id }`. -/
structure FieldIdNode where
  range : Range
  id : Int
deriving DecidableEq, Repr

/-- Modelled from the spec, Section 3 (missing from the snapshot's `ast.rs`
but matched by `symbol.rs`/`mod.rs`): `FieldTypeNode`, with the payload
structs `MapTypeNode`/`SetTypeNode`/`ListTypeNode` flattened into the
constructors as `(range, cpp_type, element types)`. -/
inductive FieldTypeNode where
  | Identifier (identifier : IdentifierNode)
  | BaseType (baseType : BaseTypeNode)
  | MapType (range : Range) (cppType : Option String) (keyType valueType : FieldTypeNode)
  | SetType (range : Range) (cppType : Option String) (typeNode : FieldTypeNode)
  | ListType (range : Range) (cppType : Option String) (typeNode : FieldTypeNode)
deriving DecidableEq, Repr

/-- `ast.rs`: `FieldNode`. -/
structure FieldNode where
  range : Range
  fieldId : Option FieldIdNode
  fieldReq : Option String
  fieldType : FieldTypeNode
  identifier : IdentifierNode
  defaultValue : Option ConstValueNode
  ext : Option ExtNode
deriving DecidableEq, Repr

/-- `ast.rs`: `EnumValueNode`. -/
structure EnumValueNode where
  range : Range
  name : String
  value : Option Int
  ext : Option ExtNode
deriving DecidableEq, Repr

/-- `ast.rs`: `ConstNode`. -/
structure ConstNode where
  range : Range
  fieldType : FieldTypeNode
  identifier : IdentifierNode
  value : ConstValueNode
deriving DecidableEq, Repr

/-- `ast.rs`: `TypedefNode`. -/
structure TypedefNode where
  range : Range
  definitionType : FieldTypeNode
  identifier : IdentifierNode
deriving DecidableEq, Repr

/-- `ast.rs`: `EnumNode`. -/
structure EnumNode where
  range : Range
  identifier : IdentifierNode
  values : List EnumValueNode
deriving DecidableEq, Repr

/-- `ast.rs`: `StructNode`. -/
structure StructNode where
  range : Range
  identifier : IdentifierNode
  fields : List FieldNode
  ext : Option ExtNode
deriving DecidableEq, Repr

/-- `ast.rs`: `UnionNode`. -/
structure UnionNode where
  range : Range
  identifier : IdentifierNode
  fields : List FieldNode
deriving DecidableEq, Repr

/-- `ast.rs`: `ExceptionNode`. -/
structure ExceptionNode where
  range : Range
  identifier : IdentifierNode
  fields : List FieldNode
deriving DecidableEq, Repr

/-- `ast.rs`: `FunctionNode` (`function_type` is an `Option` for the
consumers; `None` models a `void` return only when absent). -/
structure FunctionNode where
  range : Range
  isOneway : Bool
  functionType : Option FieldTypeNode
  identifier : IdentifierNode
  fields : List FieldNode
  throws : Option (List FieldNode)
  ext : Option ExtNode
deriving DecidableEq, Repr

/-- `ast.rs`: `ServiceNode` (`extends` as the consumers use it: the field
Lean cannot name `extends` is called `extendsNode`). -/
structure ServiceNode where
  range : Range
  identifier : IdentifierNode
  extendsNode : Option IdentifierNode
  functions : List FunctionNode
deriving DecidableEq, Repr

/-- `ast.rs`: `IncludeNode { range, literal }`. -/
structure IncludeNode where
  range : Range
  literal : String
deriving DecidableEq, Repr

/-- `ast.rs`: `CppIncludeNode { range, literal }`. -/
structure CppIncludeNode where
  range : Range
  literal : String
deriving DecidableEq, Repr

/-- `ast.rs`: `NamespaceNode`. -/
structure NamespaceNode where
  range : Range
  scope : String
  identifier : IdentifierNode
  ext : Option ExtNode
deriving DecidableEq, Repr

/-- `ast.rs`: `HeaderNode`. -/
inductive HeaderNode where
  | Include (node : IncludeNode)
  | CppInclude (node : CppIncludeNode)
  | Namespace (node : NamespaceNode)
deriving DecidableEq, Repr

/-- `ast.rs`: `DefinitionNode`. -/
inductive DefinitionNode where
  | Const (node : ConstNode)
  | Typedef (node : TypedefNode)
  | Enum (node : EnumNode)
  | Struct (node : StructNode)
  | Union (node : UnionNode)
  | Exception (node : ExceptionNode)
  | Service (node : ServiceNode)
deriving DecidableEq, Repr

/-- `ast.rs`: `DocumentNode`. -/
structure DocumentNode where
  range : Range
  headers : List HeaderNode
  definitions : List DefinitionNode
deriving DecidableEq, Repr

/-- `ast.rs`: `HeaderNode`'s `Deref`-forwarded `range()`. -/
def HeaderNode.range : HeaderNode → Range
  | .Include node => node.range
  | .CppInclude node => node.range
  | .Namespace node => node.range

/-- `ast.rs`: `DefinitionNode::identifier`. -/
def DefinitionNode.identifier : DefinitionNode → IdentifierNode
  | .Const node => node.identifier
  | .Typedef node => node.identifier
  | .Enum node => node.identifier
  | .Struct node => node.identifier
  | .Union node => node.identifier
  | .Exception node => node.identifier
  | .Service node => node.identifier

/-- `ast.rs`: `DefinitionNode::name` (`identifier().name`). -/
def DefinitionNode.name (d : DefinitionNode) : String := d.identifier.name

/-- `ast.rs`: `DefinitionNode`'s `Deref`-forwarded `range()`. -/
def DefinitionNode.range : DefinitionNode → Range
  | .Const node => node.range
  | .Typedef node => node.range
  | .Enum node => node.range
  | .Struct node => node.range
  | .Union node => node.range
  | .Exception node => node.range
  | .Service node => node.range

/-- Byte offset of the first `.` of a name (Rust `str::find` returns a byte
index; the scanner's identifiers may contain multi-byte alphanumerics, so
the offset is accumulated in `utf8Size` units). -/
def dotByteIdx : List Char → Option Nat
  | [] => none
  | c :: cs => if c = '.' then some 0 else (dotByteIdx cs).map (· + c.utf8Size)

/-- `ast.rs`: `IdentifierNode::position_in_namespace`. -/
def IdentifierNode.positionInNamespace (idn : IdentifierNode) (pos : Position) : Bool :=
  match dotByteIdx idn.name.data with
  | none => false
  | some dotIndex =>
    idn.range.contains pos &&
      decide (idn.range.start.column ≤ pos.column) &&
      decide (pos.column ≤ idn.range.start.column + dotIndex)

/-- `ast.rs`: `IdentifierNode::split_by_first_dot`.  The Rust byte slices
`name[..dot_index]` / `name[dot_index + 1..]` are exactly the characters
before / after the first `.`. -/
def IdentifierNode.splitByFirstDot (idn : IdentifierNode) :
    Option IdentifierNode × IdentifierNode :=
  match dotByteIdx idn.name.data with
  | none => (none, idn)
  | some dotIndex =>
    let ns : IdentifierNode :=
      { range := { start := idn.range.start
                   stop := { line := idn.range.start.line
                             column := idn.range.start.column + dotIndex } }
        name := String.mk (idn.name.data.takeWhile (fun c => c != '.')) }
    let rest : IdentifierNode :=
      { range := { start := { line := idn.range.start.line
                              column := idn.range.start.column + dotIndex }
                   stop := idn.range.stop }
        name := String.mk ((idn.name.data.dropWhile (fun c => c != '.')).drop 1) }
    (some ns, rest)

/-! ## Symbol table (`symbol.rs`) -/

/-- `symbol.rs`: `SymbolTable`.  `HashMap`s become association lists with
unique keys; `Rc` sharing becomes plain values; the `errors` `RefCell`
becomes a list field threaded by the functions that push to it.  The type
is a nested inductive (`includes` holds whole sub-tables) so that
`find_definition_of_identifier_type` stays structurally recursive. -/
inductive SymbolTable where
  | mk (path : String) (types : List (String × DefinitionNode))
       (includeNodes : List (String × HeaderNode))
       (includes : List (String × SymbolTable))
       (namespaceToPath : List (String × String))
       (errors : List Error)

/-- The `path` field. -/
def SymbolTable.path : SymbolTable → String
  | .mk p _ _ _ _ _ => p

/-- `symbol.rs`: `SymbolTable::types`. -/
def SymbolTable.types : SymbolTable → List (String × DefinitionNode)
  | .mk _ t _ _ _ _ => t

/-- The `include_nodes` field. -/
def SymbolTable.includeNodes : SymbolTable → List (String × HeaderNode)
  | .mk _ _ i _ _ _ => i

/-- `symbol.rs`: `SymbolTable::includes`. -/
def SymbolTable.includes : SymbolTable → List (String × SymbolTable)
  | .mk _ _ _ i _ _ => i

/-- The `namespace_to_path` field. -/
def SymbolTable.namespaceToPath : SymbolTable → List (String × String)
  | .mk _ _ _ _ n _ => n

/-- `symbol.rs`: `SymbolTable::errors` (clones the `RefCell` contents). -/
def SymbolTable.errors : SymbolTable → List Error
  | .mk _ _ _ _ _ e => e

/-- `HashMap::insert`: replace any existing binding of `k`. -/
def mapInsert {α : Type} (l : List (String × α)) (k : String) (v : α) :
    List (String × α) :=
  l.filter (fun p => p.1 != k) ++ [(k, v)]

/-- `symbol.rs`: `SymbolTable::process_definition` (`contains_key` →
duplicate error at the new node's range, else insert; inserting an absent
key appends). -/
def SymbolTable.processDefinition : SymbolTable → DefinitionNode → SymbolTable
  | .mk path types includeNodes includes namespaceToPath errors, definition =>
    if (types.lookup definition.name).isSome then
      .mk path types includeNodes includes namespaceToPath
        (errors ++ [{ range := definition.range
                      message := "Duplicate definition: " ++ definition.name }])
    else
      .mk path (types ++ [(definition.name, definition)]) includeNodes includes
        namespaceToPath errors

/-- `symbol.rs`: `SymbolTable::new_from_ast`. -/
def SymbolTable.newFromAst (path : String) (document : DocumentNode) : SymbolTable :=
  document.definitions.foldl SymbolTable.processDefinition (.mk path [] [] [] [] [])

/-- Modelled from the spec, Section 4.6 (Rust `Path::file_stem`, used by
`add_dependency`): the last `/`-separated component without its final
`.`-extension (a leading dot does not start an extension); `""` when
absent. -/
def fileStem (path : String) : String :=
  let base := (path.data.reverse.takeWhile (fun c => c != '/')).reverse
  match (base.reverse.findIdx? (fun c => c = '.')) with
  | none => String.mk base
  | some k =>
    let i := base.length - 1 - k
    if i = 0 then String.mk base else String.mk (base.take i)

/-- `symbol.rs`: `SymbolTable::add_dependency`. -/
def SymbolTable.addDependency : SymbolTable → String → HeaderNode → SymbolTable → SymbolTable
  | .mk p types includeNodes includes namespaceToPath errors, path, node, dependency =>
    let ns := fileStem path
    let includeNodes' := match node with
      | HeaderNode.Include _ => mapInsert includeNodes ns node
      | _ => includeNodes
    .mk p types includeNodes' (mapInsert includes ns dependency)
      (mapInsert namespaceToPath ns path) errors

mutual

/-- `symbol.rs`: `SymbolTable::find_definition_of_identifier_type`. -/
def SymbolTable.findDefinitionOfIdentifierType :
    SymbolTable → IdentifierNode → Option (String × DefinitionNode × Option HeaderNode)
  | .mk path types includeNodes includes _ _, identifier =>
    match identifier.splitByFirstDot with
    | (some ns, rest) =>
      match SymbolTable.findInIncludes includes ns.name rest with
      | none => none
      | some (p, d) =>
        match includeNodes.lookup ns.name with
        | none => none
        | some header => some (p, d, some header)
    | (none, _) =>
      match types.lookup identifier.name with
      | none => none
      | some d => some (path, d, none)

/-- `self.includes.get(&namespace.name)?` followed by the recursive call,
fused so the recursion is structural (`mapInsert` keeps keys unique, so the
first match is the binding). -/
def SymbolTable.findInIncludes :
    List (String × SymbolTable) → String → IdentifierNode → Option (String × DefinitionNode)
  | [], _, _ => none
  | (k, table) :: rest, key, identifier =>
    if k == key then
      match SymbolTable.findDefinitionOfIdentifierType table identifier with
      | none => none
      | some (p, d, _) => some (p, d)
    else SymbolTable.findInIncludes rest key identifier

end

/-- `symbol.rs`: `SymbolTable::check_identifier_type` — the errors it pushes. -/
def SymbolTable.checkIdentifierType (t : SymbolTable) (identifier : IdentifierNode) :
    List Error :=
  if (t.findDefinitionOfIdentifierType identifier).isNone then
    [{ range := identifier.range, message := "Undefined type: " ++ identifier.name }]
  else []

/-- `symbol.rs`: `SymbolTable::check_field_type` — the errors it pushes. -/
def SymbolTable.checkFieldType (t : SymbolTable) : FieldTypeNode → List Error
  | .Identifier identifier => t.checkIdentifierType identifier
  | .BaseType _ => []
  | .MapType _ _ keyType valueType => t.checkFieldType keyType ++ t.checkFieldType valueType
  | .SetType _ _ typeNode => t.checkFieldType typeNode
  | .ListType _ _ typeNode => t.checkFieldType typeNode

/-- `symbol.rs`: `SymbolTable::check_document_types` — the errors it pushes,
in document order. -/
def SymbolTable.checkDocumentTypes (t : SymbolTable) (document : DocumentNode) :
    List Error :=
  document.definitions.flatMap fun definition =>
    match definition with
    | .Const constDef => t.checkFieldType constDef.fieldType
    | .Struct structDef => structDef.fields.flatMap fun f => t.checkFieldType f.fieldType
    | .Union unionDef => unionDef.fields.flatMap fun f => t.checkFieldType f.fieldType
    | .Exception exceptionDef =>
      exceptionDef.fields.flatMap fun f => t.checkFieldType f.fieldType
    | .Service serviceDef =>
      (match serviceDef.extendsNode with
       | some e => t.checkIdentifierType e
       | none => []) ++
      serviceDef.functions.flatMap (fun fn =>
        (match fn.functionType with
         | some ft => t.checkFieldType ft
         | none => []) ++
        fn.fields.flatMap (fun f => t.checkFieldType f.fieldType) ++
        (match fn.throws with
         | some throws => throws.flatMap fun f => t.checkFieldType f.fieldType
         | none => []))
    | _ => []

def c1Const : ConstNode :=
  { range := ⟨⟨1, 1⟩, ⟨1, 20⟩⟩
    fieldType := .BaseType ⟨⟨⟨1, 7⟩, ⟨1, 10⟩⟩, "i32"⟩
    identifier := ⟨⟨⟨1, 11⟩, ⟨1, 18⟩⟩, "MyConst"⟩
    value := ⟨⟨⟨1, 19⟩, ⟨1, 20⟩⟩, "1"⟩ }

def c1Doc : DocumentNode :=
  { range := ⟨⟨1, 1⟩, ⟨1, 20⟩⟩, headers := [], definitions := [.Const c1Const] }

/-! ## `Analyzer::find_identifier` and `Analyzer::definition` (`mod.rs`)

`find_identifier` walks `dyn Node` values: it returns `None` when the node's
range does not contain `pos`, returns the node itself when it is an
`IdentifierNode`, and otherwise recurses over `children()` returning the
first hit.  Below it is specialised per node type with the `children()`
order of the snapshot's `ast.rs`; child nodes that can never contain an
`IdentifierNode` (`ConstValueNode`, `FieldIdNode`, `ExtNode`,
`EnumValueNode`'s children) contribute `none` and are dropped. -/

/-- First hit of `find_identifier` over a `children()` sub-list. -/
def firstIdent {α : Type} (f : α → Option IdentifierNode) : List α → Option IdentifierNode
  | [] => none
  | x :: xs =>
    match f x with
    | some i => some i
    | none => firstIdent f xs

/-- `find_identifier` at an `IdentifierNode` leaf. -/
def findIdentIdentifier (pos : Position) (idn : IdentifierNode) : Option IdentifierNode :=
  if idn.range.contains pos then some idn else none

/-- `find_identifier` through a `FieldTypeNode` (children of a map are
`[key_type, value_type]`, of set/list `[type_node]`). -/
def findIdentFieldType (pos : Position) : FieldTypeNode → Option IdentifierNode
  | .Identifier idn => findIdentIdentifier pos idn
  | .BaseType _ => none
  | .MapType r _ keyType valueType =>
    if r.contains pos then
      match findIdentFieldType pos keyType with
      | some i => some i
      | none => findIdentFieldType pos valueType
    else none
  | .SetType r _ typeNode =>
    if r.contains pos then findIdentFieldType pos typeNode else none
  | .ListType r _ typeNode =>
    if r.contains pos then findIdentFieldType pos typeNode else none

/-- `find_identifier` through a `FieldNode` (children:
`field_id?, field_type, identifier, default_value?, ext?`). -/
def findIdentField (pos : Position) (f : FieldNode) : Option IdentifierNode :=
  if f.range.contains pos then
    match findIdentFieldType pos f.fieldType with
    | some i => some i
    | none => findIdentIdentifier pos f.identifier
  else none

/-- `find_identifier` through a `FunctionNode` (children:
`function_type, identifier, fields, throws?, ext?`). -/
def findIdentFunction (pos : Position) (fn : FunctionNode) : Option IdentifierNode :=
  if fn.range.contains pos then
    match (match fn.functionType with
           | some ft => findIdentFieldType pos ft
           | none => none) with
    | some i => some i
    | none =>
      match findIdentIdentifier pos fn.identifier with
      | some i => some i
      | none =>
        match firstIdent (findIdentField pos) fn.fields with
        | some i => some i
        | none =>
          match fn.throws with
          | some throws => firstIdent (findIdentField pos) throws
          | none => none
  else none

/-- `find_identifier` through a `DefinitionNode` (children per the `Node`
impls; a `ServiceNode`'s children are its identifier and functions only). -/
def findIdentDefinition (pos : Position) : DefinitionNode → Option IdentifierNode
  | .Const node =>
    if node.range.contains pos then
      match findIdentFieldType pos node.fieldType with
      | some i => some i
      | none => findIdentIdentifier pos node.identifier
    else none
  | .Typedef node =>
    if node.range.contains pos then
      match findIdentFieldType pos node.definitionType with
      | some i => some i
      | none => findIdentIdentifier pos node.identifier
    else none
  | .Enum node =>
    if node.range.contains pos then findIdentIdentifier pos node.identifier else none
  | .Struct node =>
    if node.range.contains pos then
      match findIdentIdentifier pos node.identifier with
      | some i => some i
      | none => firstIdent (findIdentField pos) node.fields
    else none
  | .Union node =>
    if node.range.contains pos then
      match findIdentIdentifier pos node.identifier with
      | some i => some i
      | none => firstIdent (findIdentField pos) node.fields
    else none
  | .Exception node =>
    if node.range.contains pos then
      match findIdentIdentifier pos node.identifier with
      | some i => some i
      | none => firstIdent (findIdentField pos) node.fields
    else none
  | .Service node =>
    if node.range.contains pos then
      match findIdentIdentifier pos node.identifier with
      | some i => some i
      | none => firstIdent (findIdentFunction pos) node.functions
    else none

/-- `find_identifier` through a `HeaderNode` (only a namespace header has an
`IdentifierNode` child). -/
def findIdentHeader (pos : Position) : HeaderNode → Option IdentifierNode
  | .Include _ => none
  | .CppInclude _ => none
  | .Namespace node =>
    if node.range.contains pos then findIdentIdentifier pos node.identifier else none

/-- `mod.rs`: `Analyzer::find_identifier` from the document root (children:
headers then definitions). -/
def findIdentifier (document : DocumentNode) (pos : Position) : Option IdentifierNode :=
  if document.range.contains pos then
    match firstIdent (findIdentHeader pos) document.headers with
    | some i => some i
    | none => firstIdent (findIdentDefinition pos) document.definitions
  else none

/-- `mod.rs`: the `Analyzer` struct.  The `HashMap` fields are modelled as
functions (`none` = key absent); `wasm_read_file` lives in `Env`. -/
structure AState where
  documents : String → Option (List Char)
  documentNodes : String → Option DocumentNode
  symbolTables : String → Option SymbolTable
  errors : String → Option (List Error)
  semanticTokens : String → Option (List Nat)

/-- `mod.rs`: `Analyzer::new`. -/
def initAState : AState :=
  ⟨fun _ => none, fun _ => none, fun _ => none, fun _ => none, fun _ => none⟩

/-- `HashMap::insert`/`remove` on a function-modelled map. -/
def fupd {α : Type} (f : String → α) (k : String) (v : α) : String → α :=
  fun x => if x = k then v else f x

/-- `mod.rs`: `Analyzer::definition`. -/
def Analyzer.definition (st : AState) (path : String) (pos : Position) : Option Location :=
  match st.documentNodes path with
  | none => none
  | some documentNode =>
    match findIdentifier documentNode pos with
    | none => none
    | some identifier =>
      match st.symbolTables path with
      | none => none
      | some symbolTable =>
        match symbolTable.findDefinitionOfIdentifierType identifier with
        | none => none
        | some (newPath, d, header) =>
          if identifier.positionInNamespace pos then
            match header with
            | some inc => some { path := path, range := inc.range }
            | none => none
          else some { path := newPath, range := d.identifier.range }

def c3Hdr : HeaderNode := HeaderNode.Include ⟨⟨⟨1, 1⟩, ⟨1, 17⟩⟩, "a.thrift"⟩

def c3Idn : IdentifierNode := ⟨⟨⟨2, 7⟩, ⟨2, 12⟩⟩, "a.Foo"⟩

def c3Doc : DocumentNode :=
  { range := ⟨⟨1, 1⟩, ⟨3, 1⟩⟩
    headers := [c3Hdr]
    definitions := [DefinitionNode.Const
      { range := ⟨⟨2, 1⟩, ⟨2, 30⟩⟩
        fieldType := FieldTypeNode.Identifier c3Idn
        identifier := ⟨⟨⟨2, 13⟩, ⟨2, 14⟩⟩, "x"⟩
        value := ⟨⟨⟨2, 17⟩, ⟨2, 18⟩⟩, "1"⟩ }] }

def c3DocA : DocumentNode := { range := ⟨⟨1, 1⟩, ⟨1, 1⟩⟩, headers := [], definitions := [] }

def c3Table : SymbolTable :=
  SymbolTable.mk "m.thrift" [] [("a", c3Hdr)]
    [("a", SymbolTable.newFromAst "a.thrift" c3DocA)] [("a", "a.thrift")] []

def c3St : AState :=
  { initAState with
      documentNodes := fupd initAState.documentNodes "m.thrift" (some c3Doc)
      symbolTables := fupd initAState.symbolTables "m.thrift" (some c3Table) }

def c3Pos : Position := ⟨2, 7⟩

/-! ## Semantic tokens (`mod.rs`) -/

/-- `mod.rs`: `collect_field_type_identifiers`. -/
def collectFieldTypeIdentifiers : FieldTypeNode → List IdentifierNode
  | .Identifier identifier => [identifier]
  | .BaseType _ => []
  | .MapType _ _ keyType valueType =>
    collectFieldTypeIdentifiers keyType ++ collectFieldTypeIdentifiers valueType
  | .SetType _ _ typeNode => collectFieldTypeIdentifiers typeNode
  | .ListType _ _ typeNode => collectFieldTypeIdentifiers typeNode

/-- `mod.rs`: `find_field_type_identifiers`, given the document node the
analyzer would look up. -/
def findFieldTypeIdentifiers (document : DocumentNode) : List IdentifierNode :=
  document.definitions.flatMap fun definition =>
    match definition with
    | .Const constNode => collectFieldTypeIdentifiers constNode.fieldType
    | .Typedef typedefNode =>
      collectFieldTypeIdentifiers typedefNode.definitionType ++ [typedefNode.identifier]
    | .Struct structNode =>
      structNode.fields.flatMap fun f => collectFieldTypeIdentifiers f.fieldType
    | .Union unionNode =>
      unionNode.fields.flatMap fun f => collectFieldTypeIdentifiers f.fieldType
    | .Exception exceptionNode =>
      exceptionNode.fields.flatMap fun f => collectFieldTypeIdentifiers f.fieldType
    | .Service serviceNode =>
      (match serviceNode.extendsNode with
       | some e => [e]
       | none => []) ++
      serviceNode.functions.flatMap (fun fn =>
        (match fn.functionType with
         | some ft => collectFieldTypeIdentifiers ft
         | none => []) ++
        fn.fields.flatMap (fun f => collectFieldTypeIdentifiers f.fieldType) ++
        (match fn.throws with
         | some throws => throws.flatMap fun f => collectFieldTypeIdentifiers f.fieldType
         | none => []))
    | .Enum _ => []

/-- `mod.rs`: `find_function_identifiers`. -/
def findFunctionIdentifiers (document : DocumentNode) : List IdentifierNode :=
  document.definitions.flatMap fun definition =>
    match definition with
    | .Service serviceNode => serviceNode.functions.map (·.identifier)
    | _ => []

/-- Modelled from the spec, Section 4.1.1 (the `Ord` on `Range` that
`sort_by_key` uses; the snapshot's stale `base.rs` lacks the derive):
lexicographic on `(start.line, start.column, end.line, end.column)`. -/
def rangeKeyLe (a b : Range) : Bool :=
  if a.start.line ≠ b.start.line then decide (a.start.line < b.start.line)
  else if a.start.column ≠ b.start.column then decide (a.start.column < b.start.column)
  else if a.stop.line ≠ b.stop.line then decide (a.stop.line < b.stop.line)
  else decide (a.stop.column ≤ b.stop.column)

/-- The `sort_by_key` order on `(identifier, token_type)` pairs. -/
def tokenOrder (x y : IdentifierNode × Nat) : Prop :=
  rangeKeyLe x.1.range y.1.range = true

instance : DecidableRel tokenOrder := fun x y =>
  inferInstanceAs (Decidable (_ = true))

instance : IsTotal (IdentifierNode × Nat) tokenOrder := by
  constructor
  intro a b
  unfold tokenOrder rangeKeyLe
  split_ifs <;> simp only [decide_eq_true_eq] <;> omega

instance : IsTrans (IdentifierNode × Nat) tokenOrder := by
  constructor
  intro a b c hab hbc
  unfold tokenOrder rangeKeyLe at hab hbc ⊢
  split_ifs at hab hbc ⊢ <;>
    simp only [decide_eq_true_eq] at hab hbc ⊢ <;> omega

/-- `u32` wrapping subtraction (release-mode Rust `a - b`). -/
def wsub32 (a b : Nat) : Nat := (a % 2 ^ 32 + (2 ^ 32 - b % 2 ^ 32)) % 2 ^ 32

/-- `mod.rs`: the emission loop of `convert_identifiers_to_semantic_tokens`
(`prev_line`/`prev_char` thread the previous token's 0-based coordinates). -/
def semTokGo : List (IdentifierNode × Nat) → Nat → Nat → List Nat
  | [], _, _ => []
  | (identifier, tokenType) :: rest, prevLine, prevChar =>
    let line := wsub32 identifier.range.start.line 1
    let ch := wsub32 identifier.range.start.column 1
    let length := identifier.name.utf8ByteSize % 2 ^ 32
    let deltaLine := wsub32 line prevLine
    let deltaStart := if deltaLine = 0 then wsub32 ch prevChar else ch
    deltaLine :: deltaStart :: length :: tokenType :: 0 :: semTokGo rest line ch

/-- `mod.rs`: `convert_identifiers_to_semantic_tokens` (`sort_by_key` is a
stable sort; `List.insertionSort` is its model). -/
def convertIdentifiersToSemanticTokens (identifiers : List (IdentifierNode × Nat)) :
    List Nat :=
  semTokGo (List.insertionSort tokenOrder identifiers) 0 0

/-- `mod.rs`: `generate_semantic_tokens` (always inserts a token list for
`path`, empty when there is no document node). -/
def generateSemanticTokens (path : String) (st : AState) : AState :=
  let identifiers :=
    match st.documentNodes path with
    | some documentNode =>
      (findFieldTypeIdentifiers documentNode).map (fun i => (i, 0))
        ++ (findFunctionIdentifiers documentNode).map (fun i => (i, 1))
    | none => []
  { st with
      semanticTokens :=
        fupd st.semanticTokens path (some (convertIdentifiersToSemanticTokens identifiers)) }

/-- Specification-side decoder of the LSP semantic-token stream: reads five
words per token and reconstructs absolute 0-based `(line, column)` pairs. -/
def decodeSemanticTokens : List Nat → Nat → Nat → Option (List (Nat × Nat))
  | [], _, _ => some []
  | deltaLine :: deltaStart :: _len :: _tt :: _mods :: rest, prevLine, prevChar =>
    let line := prevLine + deltaLine
    let ch := if deltaLine = 0 then prevChar + deltaStart else deltaStart
    (decodeSemanticTokens rest line ch).map (fun l => (line, ch) :: l)
  | _, _, _ => none

/-- 0-based start coordinates of a `(identifier, token_type)` pair. -/
def startCoord (p : IdentifierNode × Nat) : Nat × Nat :=
  (p.1.range.start.line - 1, p.1.range.start.column - 1)

/-- Non-decreasing lexicographic order on decoded coordinates. -/
def coordLe (a b : Nat × Nat) : Prop := a.1 < b.1 ∨ (a.1 = b.1 ∧ a.2 ≤ b.2)

def c4Ids : List (IdentifierNode × Nat) :=
  [(⟨⟨⟨2, 5⟩, ⟨2, 8⟩⟩, "Foo"⟩, 0), (⟨⟨⟨1, 3⟩, ⟨1, 6⟩⟩, "Bar"⟩, 1)]

/-! ## Parser (`parser.rs`): token fetching and `parse_identifier` -/

/-- `parser.rs`: the `Parser` state (scanner state, accumulated errors,
`prev_token`). -/
structure PState where
  sst : ScannerState
  errors : List Error
  prevToken : Option Token
deriving DecidableEq, Repr

/-- `parser.rs`: `skip_comment_tokens` — scan while the next token is a
comment; the save/restore dance leaves the scanner just before the first
non-comment token, and errors raised while scanning comments are dropped.
Fuel as in the scanner loops (a comment token consumes at least one
character, so `input.length + 1` rounds suffice). -/
def skipCommentToks (input : List Char) : Nat → ScannerState → Option ScannerState
  | 0, _ => none
  | fuel + 1, sst =>
    match scan input sst with
    | none => none
    | some (tok, _, sst2) =>
      if tok.isComment then skipCommentToks input fuel sst2 else some sst

/-- `parser.rs`: `Parser::next_token` (`none` models a scanner panic). -/
def nextToken (input : List Char) (ps : PState) : Option (Token × PState) :=
  match skipCommentToks input (input.length + 1) ps.sst with
  | none => none
  | some sst1 =>
    match scan input sst1 with
    | none => none
    | some (tok, err, sst2) =>
      let errors2 := match err with
        | some e => ps.errors ++ [e]
        | none => ps.errors
      some (tok, ⟨sst2, errors2, some tok⟩)

/-- `parser.rs`: `Parser::parse_identifier`.  `none` models a scanner panic;
`some (none, _)` is the Rust `None` return (which makes the enclosing parse
function return `None` through the `?` operator). -/
def parseIdentifier (input : List Char) (ps : PState) :
    Option (Option IdentifierNode × PState) :=
  match nextToken input ps with
  | none => none
  | some (token, ps2) =>
    match token.kind with
    | TokenKind.Identifier name => some (some ⟨token.range, name⟩, ps2)
    | k =>
      if ¬(TokenKind.fromString k.display).isSome then
        some (none,
          { ps2 with errors := ps2.errors ++
              [⟨token.range, "Invalid identifier: " ++ k.display⟩] })
      else some (some ⟨token.range, k.display⟩, ps2)

def c10Input : List Char := ['s', 't', 'r', 'u', 'c', 't']

def c10PS : PState := ⟨⟨0, 1, 1⟩, [], none⟩

def c10Tok : Token := ⟨TokenKind.Struct, ⟨1, 1⟩⟩

def c10PS2 : PState := ⟨⟨6, 1, 7⟩, [], some c10Tok⟩

/-! ## `Analyzer::sync_document` / `analyze` / `parse_document` (`mod.rs`)

`parse_document` recurses through includes; the recursion is bounded here by
an explicit `fuel` (the Rust recursion terminates on every run these
theorems speak about, and every theorem below either hypothesises or
supplies enough fuel, so the `fuel = 0` arm is unreachable there).  The
`visited : HashSet<String>` is a duplicate-free `List String` threaded
through the calls (Rust passes `&mut`); its final value is returned.  The
returned `Nat` counts how often the circular-dependency branch
(`visited.contains(path)`) fired in the whole subtree — a ghost counter used
to state when the `visited.remove` bug is not exercised. -/

/-- The analyzer's environment: file reads (`read_file`), the parser
(`Parser::new(content).parse()`), and the path arithmetic of
`parse_document` (`path_parent` and `PathBuf::join`, std functions outside
the embedded sources).  Modelled as parameters; the claim theorems
constrain them by hypotheses. -/
structure Env where
  readFile : String → Except String (List Char)
  parse : List Char → DocumentNode × List Error
  pathParent : String → Option String
  pathJoin : String → String → String

/-- `self.errors.entry(path).or_default()` followed by `push`/`extend`. -/
def pushErrs (st : AState) (path : String) (es : List Error) : AState :=
  { st with errors := fupd st.errors path (some ((st.errors path).getD [] ++ es)) }

/-- Append errors to a table's `errors` `RefCell`. -/
def pushTableErrors : SymbolTable → List Error → SymbolTable
  | .mk p t iN i nP e, es => .mk p t iN i nP (e ++ es)

/-- `mod.rs`: `Analyzer::fields_check` (one pass; for each field first the
duplicate-ID check, then the duplicate-name check; the `HashSet`s are
modelled as lists whose order is never observed). -/
def fieldsCheckGo (path : String) :
    List FieldNode → List Int → List String → AState → AState
  | [], _, _, st => st
  | f :: rest, fieldIds, fieldIdentifiers, st =>
    let step1 :=
      match f.fieldId with
      | some fid =>
        if fieldIds.contains fid.id then
          (pushErrs st path [⟨fid.range, "Duplicate field ID: " ++ toString fid.id⟩],
           fieldIds)
        else (st, fid.id :: fieldIds)
      | none => (st, fieldIds)
    let step2 :=
      if fieldIdentifiers.contains f.identifier.name then
        (pushErrs step1.1 path
          [⟨f.identifier.range, "Duplicate field identifier: " ++ f.identifier.name⟩],
         fieldIdentifiers)
      else (step1.1, f.identifier.name :: fieldIdentifiers)
    fieldsCheckGo path rest step1.2 step2.2 step2.1

/-- `mod.rs`: `Analyzer::fields_check`. -/
def fieldsCheck (path : String) (fields : List FieldNode) (st : AState) : AState :=
  fieldsCheckGo path fields [] [] st

/-- `mod.rs`: `Analyzer::functions_check`. -/
def functionsCheckGo (path : String) :
    List FunctionNode → List String → AState → AState
  | [], _, st => st
  | fn :: rest, functionIdentifiers, st =>
    let st1 := fieldsCheck path fn.fields st
    let step :=
      if functionIdentifiers.contains fn.identifier.name then
        (pushErrs st1 path
          [⟨fn.identifier.range, "Duplicate function identifier: " ++ fn.identifier.name⟩],
         functionIdentifiers)
      else (st1, fn.identifier.name :: functionIdentifiers)
    functionsCheckGo path rest step.2 step.1

/-- `mod.rs`: `Analyzer::functions_check` entry point. -/
def functionsCheck (path : String) (functions : List FunctionNode) (st : AState) : AState :=
  functionsCheckGo path functions [] st

/-- `mod.rs`: the `for` loop of `Analyzer::document_check`. -/
def documentCheckGo (path : String) : List DefinitionNode → AState → AState
  | [], st => st
  | definition :: rest, st =>
    documentCheckGo path rest
      (match definition with
       | DefinitionNode.Struct structNode => fieldsCheck path structNode.fields st
       | DefinitionNode.Union unionNode => fieldsCheck path unionNode.fields st
       | DefinitionNode.Exception exceptionNode => fieldsCheck path exceptionNode.fields st
       | DefinitionNode.Service serviceNode => functionsCheck path serviceNode.functions st
       | _ => st)

/-- `mod.rs`: `Analyzer::document_check`. -/
def documentCheck (path : String) (document : DocumentNode) (st : AState) : AState :=
  documentCheckGo path document.definitions st

/-- `mod.rs`: the dependency list built from the include headers
(`path_parent(path)` joined with each include literal). -/
def dependenciesOf (env : Env) (path : String) (document : DocumentNode) :
    List (String × HeaderNode) :=
  document.headers.filterMap fun h =>
    match h with
    | HeaderNode.Include inc =>
      match env.pathParent path with
      | some parent => some (env.pathJoin parent inc.literal, h)
      | none => none
    | _ => none

mutual

/-- `mod.rs`: `Analyzer::parse_document`; returns
`(state, success, final visited, circular-branch hit count)`. -/
def parseDocument (env : Env) :
    Nat → String → List String → Option (String × HeaderNode) → AState →
    Option (AState × Bool × List String × Nat)
  | 0, _, _, _, _ => none
  | fuel + 1, path, visited, source, st =>
    if visited.contains path then
      match source with
      | some (sourcePath, node) =>
        some (pushErrs st sourcePath
          [⟨node.range, "Circular dependency detected: " ++ path⟩], false, visited, 1)
      | none => some (st, false, visited, 1)
    else
      let visited1 := path :: visited
      if (st.documentNodes path).isSome then some (st, true, visited1, 0)
      else
        match (match st.documents path with
               | some content => Except.ok content
               | none => env.readFile path) with
        | Except.error e =>
          match source with
          | some (sourcePath, node) =>
            some (pushErrs st sourcePath
              [⟨node.range, "Failed to read file " ++ path ++ ": " ++ e⟩],
              false, visited1, 0)
          | none => some (st, false, visited1, 0)
        | Except.ok content =>
          let parsed := env.parse content
          let st1 := pushErrs st path parsed.2
          let dependencies := dependenciesOf env path parsed.1
          match depLoop env fuel path dependencies visited1 st1
              (SymbolTable.newFromAst path parsed.1) with
          | none => none
          | some (st2, visited2, table2, hits) =>
            some ({ st2 with
                      symbolTables := fupd st2.symbolTables path (some table2)
                      documentNodes := fupd st2.documentNodes path (some parsed.1) },
                  true, visited2, hits)

/-- `mod.rs`: the dependency loop of `parse_document` (lines 280-291): call
`parse_document` on each dependency, erase `dep_path` from `visited`, and on
success merge the stored dependency table via `add_dependency`. -/
def depLoop (env : Env) :
    Nat → String → List (String × HeaderNode) → List String → AState → SymbolTable →
    Option (AState × List String × SymbolTable × Nat)
  | 0, _, _, _, _, _ => none
  | _ + 1, _, [], visited, st, table => some (st, visited, table, 0)
  | fuel + 1, path, (depPath, header) :: rest, visited, st, table =>
    match parseDocument env fuel depPath visited (some (path, header)) st with
    | none => none
    | some (st2, res, visited2, hits) =>
      let visited3 := visited2.erase depPath
      if res then
        match st2.symbolTables depPath with
        | some depTable =>
          match depLoop env fuel path rest visited3 st2
              (table.addDependency depPath header depTable) with
          | none => none
          | some (st3, visited4, table3, hits2) => some (st3, visited4, table3, hits + hits2)
        | none =>
          match depLoop env fuel path rest visited3 st2 table with
          | none => none
          | some (st3, visited4, table3, hits2) => some (st3, visited4, table3, hits + hits2)
      else
        match depLoop env fuel path rest visited3 st2 table with
        | none => none
        | some (st3, visited4, table3, hits2) => some (st3, visited4, table3, hits + hits2)

end

/-- `mod.rs`: `Analyzer::static_check`.  `check_document_types` pushes into
the table's `errors` `RefCell` — visible through the stored `Rc` — and
`errors[path]` is then extended with the table's complete error vector
(construction-time duplicate errors included). -/
def staticCheck (path : String) (st : AState) : AState :=
  match st.documentNodes path with
  | none => st
  | some documentNode =>
    match st.symbolTables path with
    | none => st
    | some symbolTable =>
      let table2 := pushTableErrors symbolTable (symbolTable.checkDocumentTypes documentNode)
      let st1 := { st with symbolTables := fupd st.symbolTables path (some table2) }
      documentCheck path documentNode (pushErrs st1 path table2.errors)

/-- `mod.rs`: `Analyzer::analyze` (clear the path's entries, parse, static
check, semantic tokens). -/
def analyze (env : Env) (fuel : Nat) (path : String) (st : AState) : Option AState :=
  let st0 := { st with
    documentNodes := fupd st.documentNodes path none
    symbolTables := fupd st.symbolTables path none
    errors := fupd st.errors path none
    semanticTokens := fupd st.semanticTokens path none }
  match parseDocument env fuel path [] none st0 with
  | none => none
  | some (st1, _, _, _) => some (generateSemanticTokens path (staticCheck path st1))

/-- `mod.rs`: `Analyzer::sync_document`. -/
def syncDocument (env : Env) (fuel : Nat) (path : String) (content : List Char)
    (st : AState) : Option AState :=
  analyze env fuel path { st with documents := fupd st.documents path (some content) }

def dp : DocumentNode :=
  { range := ⟨⟨1, 1⟩, ⟨2, 1⟩⟩
    headers := [HeaderNode.Include ⟨⟨⟨1, 1⟩, ⟨1, 12⟩⟩, "e"⟩]
    definitions := [] }

def de : DocumentNode :=
  { range := ⟨⟨1, 1⟩, ⟨3, 1⟩⟩
    headers := [HeaderNode.Include ⟨⟨⟨1, 1⟩, ⟨1, 12⟩⟩, "p"⟩,
                HeaderNode.Include ⟨⟨⟨2, 1⟩, ⟨2, 12⟩⟩, "p"⟩]
    definitions := [] }

def envC9 : Env :=
  { readFile := fun s => if s = "e" then Except.ok ['e'] else Except.error "no such file"
    parse := fun content =>
      if content = ['p'] then (dp, [])
      else if content = ['e'] then (de, [])
      else (⟨⟨⟨1, 1⟩, ⟨1, 1⟩⟩, [], []⟩, [])
    pathParent := fun _ => some "."
    pathJoin := fun _ lit => lit }

/-! ## Characterising one `sync_document` run without includes (for C9) -/

/-- Push errors one at a time (the shape in which the static field checks
touch `errors[path]`; an empty list pushes nothing and creates no entry). -/
def pushList (path : String) (es : List Error) (st : AState) : AState :=
  es.foldl (fun s e => pushErrs s path [e]) st

/-- The errors `fields_check` pushes, as a pure list. -/
def fieldsCheckErrsGo : List FieldNode → List Int → List String → List Error
  | [], _, _ => []
  | f :: rest, ids, names =>
    (match f.fieldId with
     | some fid =>
       if ids.contains fid.id then
         [⟨fid.range, "Duplicate field ID: " ++ toString fid.id⟩]
       else []
     | none => []) ++
    ((if names.contains f.identifier.name then
        [⟨f.identifier.range, "Duplicate field identifier: " ++ f.identifier.name⟩]
      else []) ++
    fieldsCheckErrsGo rest
      (match f.fieldId with
       | some fid => if ids.contains fid.id then ids else fid.id :: ids
       | none => ids)
      (if names.contains f.identifier.name then names else f.identifier.name :: names))

/-- The errors `functions_check` pushes, as a pure list. -/
def functionsCheckErrsGo : List FunctionNode → List String → List Error
  | [], _ => []
  | fn :: rest, names =>
    fieldsCheckErrsGo fn.fields [] [] ++
    ((if names.contains fn.identifier.name then
        [⟨fn.identifier.range, "Duplicate function identifier: " ++ fn.identifier.name⟩]
      else []) ++
    functionsCheckErrsGo rest
      (if names.contains fn.identifier.name then names else fn.identifier.name :: names))

/-- The errors `document_check` pushes, as a pure list. -/
def documentCheckErrsGo : List DefinitionNode → List Error
  | [] => []
  | definition :: rest =>
    (match definition with
     | DefinitionNode.Struct structNode => fieldsCheckErrsGo structNode.fields [] []
     | DefinitionNode.Union unionNode => fieldsCheckErrsGo unionNode.fields [] []
     | DefinitionNode.Exception exceptionNode => fieldsCheckErrsGo exceptionNode.fields [] []
     | DefinitionNode.Service serviceNode => functionsCheckErrsGo serviceNode.functions []
     | _ => []) ++ documentCheckErrsGo rest

/-- The errors `document_check` pushes, for a whole document. -/
def documentCheckErrs (document : DocumentNode) : List Error :=
  documentCheckErrsGo document.definitions

/-- The semantic tokens `generate_semantic_tokens` computes for a document. -/
def syncTokens (document : DocumentNode) : List Nat :=
  convertIdentifiersToSemanticTokens
    ((findFieldTypeIdentifiers document).map (fun i => (i, 0))
      ++ (findFunctionIdentifiers document).map (fun i => (i, 1)))

/-- The symbol table stored for `path` after `static_check`, when the
dependency loop added nothing. -/
def syncTable (env : Env) (path : String) (content : List Char) : SymbolTable :=
  pushTableErrors (SymbolTable.newFromAst path (env.parse content).1)
    ((SymbolTable.newFromAst path (env.parse content).1).checkDocumentTypes
      (env.parse content).1)

/-- The state `sync_document(path, content)` leaves when the parsed document
yields no dependencies: every field is the old map updated at `path` with a
value that depends only on `env`, `path` and `content`. -/
def syncResult (env : Env) (path : String) (content : List Char) (st : AState) : AState :=
  { documents := fupd st.documents path (some content)
    documentNodes := fupd st.documentNodes path (some (env.parse content).1)
    symbolTables := fupd st.symbolTables path (some (syncTable env path content))
    errors := fupd st.errors path
      (some ((env.parse content).2 ++ (syncTable env path content).errors
        ++ documentCheckErrs (env.parse content).1))
    semanticTokens := fupd st.semanticTokens path (some (syncTokens (env.parse content).1)) }

def c9wDoc : DocumentNode := ⟨⟨⟨1, 1⟩, ⟨1, 10⟩⟩, [], []⟩

def c9wEnv : Env :=
  { readFile := fun _ => Except.error "not found"
    parse := fun _ => (c9wDoc, [])
    pathParent := fun _ => some "."
    pathJoin := fun _ lit => lit }

def c5IncX : IncludeNode := ⟨⟨⟨1, 1⟩, ⟨1, 12⟩⟩, "y"⟩

def c5IncY : IncludeNode := ⟨⟨⟨1, 1⟩, ⟨1, 12⟩⟩, "x"⟩

def c5Dx : DocumentNode := ⟨⟨⟨1, 1⟩, ⟨2, 1⟩⟩, [HeaderNode.Include c5IncX], []⟩

def c5Dy : DocumentNode := ⟨⟨⟨1, 1⟩, ⟨2, 1⟩⟩, [HeaderNode.Include c5IncY], []⟩

def c5Env : Env :=
  { readFile := fun s => if s = "y" then Except.ok ['y'] else Except.error "nf"
    parse := fun c =>
      if c = ['x'] then (c5Dx, [])
      else if c = ['y'] then (c5Dy, [])
      else (⟨⟨⟨1, 1⟩, ⟨1, 1⟩⟩, [], []⟩, [])
    pathParent := fun _ => some "."
    pathJoin := fun _ lit => lit }

def c6S1 : DefinitionNode :=
  DefinitionNode.Struct ⟨⟨⟨1, 1⟩, ⟨1, 20⟩⟩, ⟨⟨⟨1, 8⟩, ⟨1, 9⟩⟩, "S"⟩, [], none⟩

def c6S2 : DefinitionNode :=
  DefinitionNode.Struct ⟨⟨⟨2, 1⟩, ⟨2, 20⟩⟩, ⟨⟨⟨2, 8⟩, ⟨2, 9⟩⟩, "S"⟩, [], none⟩

def c6Doc : DocumentNode := ⟨⟨⟨1, 1⟩, ⟨2, 20⟩⟩, [], [c6S1, c6S2]⟩

def c3wTypedef : DefinitionNode :=
  DefinitionNode.Typedef ⟨⟨⟨1, 1⟩, ⟨1, 20⟩⟩,
    FieldTypeNode.BaseType ⟨⟨⟨1, 9⟩, ⟨1, 12⟩⟩, "i32"⟩, ⟨⟨⟨1, 13⟩, ⟨1, 16⟩⟩, "Foo"⟩⟩

def c3wDocA : DocumentNode := ⟨⟨⟨1, 1⟩, ⟨1, 20⟩⟩, [], [c3wTypedef]⟩

def c3wTable : SymbolTable :=
  SymbolTable.mk "m.thrift" [] [("a", c3Hdr)]
    [("a", SymbolTable.newFromAst "a.thrift" c3wDocA)] [("a", "a.thrift")] []

def c3wSt : AState :=
  { initAState with
      documentNodes := fupd initAState.documentNodes "m.thrift" (some c3Doc)
      symbolTables := fupd initAState.symbolTables "m.thrift" (some c3wTable) }

/-! ## List and string helper lemmas -/

theorem get?_append_add (A l : List Char) (k : Nat) :
    (A ++ l).get? (A.length + k) = l.get? k := by
  rw [List.get?_append_right (Nat.le_add_right _ _)]
  simp

theorem get?_append_len (A l : List Char) :
    (A ++ l).get? A.length = l.get? 0 := by
  simpa using get?_append_add A l 0

theorem sliceStr_append (A l rest : List Char) :
    sliceStr (A ++ l ++ rest) A.length (A.length + l.length) = some (String.mk l) := by
  unfold sliceStr
  rw [if_pos]
  · have h1 : A ++ l ++ rest = A ++ (l ++ rest) := by simp
    rw [h1, List.drop_left, Nat.add_sub_cancel_left, List.take_left]
  · refine ⟨Nat.le_add_right _ _, ?_⟩
    simp

theorem utf8Size_of_lt_128 (c : Char) (h : c.toNat < 128) : c.utf8Size = 1 := by
  unfold Char.utf8Size
  rw [if_pos]
  show c.val ≤ 127
  rw [UInt32.le_def, BitVec.le_def]
  have h1 : c.val.toBitVec.toNat = c.toNat := rfl
  have h2 : ((127 : UInt32).toBitVec).toNat = 127 := rfl
  rw [h1, h2]
  omega

theorem utf8ByteSize_go_ascii (l : List Char) (h : ∀ c ∈ l, c.toNat < 128) :
    String.utf8ByteSize.go l = l.length := by
  induction l with
  | nil => rfl
  | cons c cs ih =>
    show String.utf8ByteSize.go cs + c.utf8Size = cs.length + 1
    rw [ih fun d hd => h d (List.mem_cons_of_mem c hd),
        utf8Size_of_lt_128 c (h c (List.mem_cons_self c cs))]

theorem utf8ByteSize_mk_ascii (l : List Char) (h : ∀ c ∈ l, c.toNat < 128) :
    (String.mk l).utf8ByteSize = l.length :=
  utf8ByteSize_go_ascii l h

/-! ## Behavior of the scanner's comment loops -/

theorem scanLineCommentLoop_spec (pos : Nat) (cs : List Char) :
    ∀ (fuel : Nat) (A rest : List Char) (offset : Nat), A.length = pos + offset → '\n' ∉ cs →
    cs.length < fuel →
    scanLineCommentLoop (A ++ (cs ++ '\n' :: rest)) fuel pos offset = offset + cs.length + 1 := by
  induction cs with
  | nil =>
    intro fuel A rest offset hA hnl hf
    obtain ⟨f, rfl⟩ : ∃ f, fuel = f + 1 := ⟨fuel - 1, by omega⟩
    simp only [scanLineCommentLoop]
    rw [← hA, get?_append_len]
    simp
  | cons c cs ih =>
    intro fuel A rest offset hA hnl hf
    obtain ⟨f, rfl⟩ : ∃ f, fuel = f + 1 := ⟨fuel - 1, by omega⟩
    simp only [scanLineCommentLoop]
    rw [← hA]
    have hg : (A ++ ((c :: cs) ++ '\n' :: rest)).get? A.length = some c := by
      rw [get?_append_len]; rfl
    rw [hg]
    have hc : c ≠ '\n' := fun h => hnl (h ▸ List.mem_cons_self c cs)
    simp only [hc, if_false]
    have hre : A ++ ((c :: cs) ++ '\n' :: rest) = (A ++ [c]) ++ (cs ++ '\n' :: rest) := by simp
    rw [hre, ih f (A ++ [c]) rest (offset + 1) (by simp [hA]; omega)
        (fun h => hnl (List.mem_cons_of_mem c h)) (by simp at hf; omega)]
    simp
    omega

theorem scanPoundCommentLoop_spec (pos : Nat) (cs : List Char) :
    ∀ (fuel : Nat) (A rest : List Char) (offset : Nat), A.length = pos + offset → '\n' ∉ cs →
    '\r' ∉ cs → cs.length < fuel →
    scanPoundCommentLoop (A ++ (cs ++ '\n' :: rest)) fuel pos offset = offset + cs.length + 1 := by
  induction cs with
  | nil =>
    intro fuel A rest offset hA hnl hcr hf
    obtain ⟨f, rfl⟩ : ∃ f, fuel = f + 1 := ⟨fuel - 1, by omega⟩
    simp only [scanPoundCommentLoop]
    rw [← hA, get?_append_len]
    simp
  | cons c cs ih =>
    intro fuel A rest offset hA hnl hcr hf
    obtain ⟨f, rfl⟩ : ∃ f, fuel = f + 1 := ⟨fuel - 1, by omega⟩
    simp only [scanPoundCommentLoop]
    rw [← hA]
    have hg : (A ++ ((c :: cs) ++ '\n' :: rest)).get? A.length = some c := by
      rw [get?_append_len]; rfl
    rw [hg]
    have hc : c ≠ '\n' := fun h => hnl (h ▸ List.mem_cons_self c cs)
    have hc2 : c ≠ '\r' := fun h => hcr (h ▸ List.mem_cons_self c cs)
    simp only [hc, hc2, if_false]
    have hre : A ++ ((c :: cs) ++ '\n' :: rest) = (A ++ [c]) ++ (cs ++ '\n' :: rest) := by simp
    rw [hre, ih f (A ++ [c]) rest (offset + 1) (by simp [hA]; omega)
        (fun h => hnl (List.mem_cons_of_mem c h))
        (fun h => hcr (List.mem_cons_of_mem c h)) (by simp at hf; omega)]
    simp
    omega

/-- Running `Scanner::scan` on a `//` comment terminated by a newline: the
token's stored content includes the trailing newline character. -/
theorem scan_line_comment_run (pre cs rest : List Char) (line col : Nat)
    (hnl : '\n' ∉ cs) :
    scan (pre ++ ('/' :: '/' :: (cs ++ '\n' :: rest))) ⟨pre.length, line, col⟩ =
      some ({ kind := .Comment (String.mk (cs ++ ['\n'])), position := ⟨line, col⟩ }, none,
            ⟨pre.length + (cs.length + 3), line + 1, 1⟩) := by
  have hg : (pre ++ ('/' :: '/' :: (cs ++ '\n' :: rest))).get? pre.length = some '/' := by
    rw [get?_append_len]; rfl
  rw [scan.eq_def]
  simp only [scanGo]
  split
  · next heq => rw [hg] at heq; exact absurd heq (by simp)
  · next ch heq =>
    rw [hg] at heq
    injection heq with heq
    subst heq
    simp only [show ¬ (('/' : Char) = '\n') from by decide,
               show ¬ (('/' : Char) = '\r') from by decide,
               show ¬ (('/' : Char) = ' ' ∨ ('/' : Char) = '\t') from by decide,
               if_false, if_true]
    have hlen : ¬ ((pre ++ ('/' :: '/' :: (cs ++ '\n' :: rest))).length ≤ pre.length + 1) := by
      simp
    rw [if_neg hlen]
    have hlc : scanLineComment (pre ++ ('/' :: '/' :: (cs ++ '\n' :: rest))) pre.length
        = (cs.length + 3, true) := by
      rw [scanLineComment]
      have hg1 : (pre ++ ('/' :: '/' :: (cs ++ '\n' :: rest))).get? (pre.length + 1)
          = some '/' := by
        rw [get?_append_add]; rfl
      rw [if_neg (not_or.mpr ⟨by simp, fun h => h hg1⟩)]
      have hre : pre ++ ('/' :: '/' :: (cs ++ '\n' :: rest))
          = (pre ++ ['/', '/']) ++ (cs ++ '\n' :: rest) := by simp
      rw [hre, scanLineCommentLoop_spec pre.length cs _ (pre ++ ['/', '/']) rest 2 (by simp) hnl
            (by simp; omega)]
      have h23 : 2 + cs.length + 1 = cs.length + 3 := by omega
      rw [h23]
    rw [hlc]
    simp only [if_true]
    have harith : pre.length + (cs.length + 3)
        = (pre ++ ['/', '/']).length + (cs ++ ['\n']).length := by
      simp
      omega
    have harith2 : pre.length + 2 = (pre ++ ['/', '/']).length := by simp
    have hre2 : pre ++ ('/' :: '/' :: (cs ++ '\n' :: rest))
        = (pre ++ ['/', '/']) ++ (cs ++ ['\n']) ++ rest := by simp
    have hsl : sliceStr (pre ++ ('/' :: '/' :: (cs ++ '\n' :: rest))) (pre.length + 2)
        (pre.length + (cs.length + 3)) = some (String.mk (cs ++ ['\n'])) := by
      rw [harith, harith2, hre2, sliceStr_append]
    rw [hsl]

/-- Running `Scanner::scan` on a `#` comment terminated by a newline: the
token's stored content includes the leading `#` and the trailing newline. -/
theorem scan_pound_comment_run (pre cs rest : List Char) (line col : Nat)
    (hnl : '\n' ∉ cs) (hcr : '\r' ∉ cs) :
    scan (pre ++ ('#' :: (cs ++ '\n' :: rest))) ⟨pre.length, line, col⟩ =
      some ({ kind := .PoundComment (String.mk ('#' :: (cs ++ ['\n']))), position := ⟨line, col⟩ },
            none, ⟨pre.length + (cs.length + 2), line + 1, 1⟩) := by
  have hg : (pre ++ ('#' :: (cs ++ '\n' :: rest))).get? pre.length = some '#' := by
    rw [get?_append_len]; rfl
  rw [scan.eq_def]
  simp only [scanGo]
  split
  · next heq => rw [hg] at heq; exact absurd heq (by simp)
  · next ch heq =>
    rw [hg] at heq
    injection heq with heq
    subst heq
    simp only [show ¬ (('#' : Char) = '\n') from by decide,
               show ¬ (('#' : Char) = '\r') from by decide,
               show ¬ (('#' : Char) = ' ' ∨ ('#' : Char) = '\t') from by decide,
               show ¬ (('#' : Char) = '/') from by decide,
               if_false, if_true, if_pos]
    have hpc : scanPoundComment (pre ++ ('#' :: (cs ++ '\n' :: rest))) pre.length
        = cs.length + 2 := by
      rw [scanPoundComment]
      have hre : pre ++ ('#' :: (cs ++ '\n' :: rest)) = (pre ++ ['#']) ++ (cs ++ '\n' :: rest) := by
        simp
      rw [hre, scanPoundCommentLoop_spec pre.length cs _ (pre ++ ['#']) rest 1 (by simp) hnl hcr
            (by simp; omega)]
      omega
    rw [hpc]
    have harith : pre.length + (cs.length + 2) = pre.length + ('#' :: (cs ++ ['\n'])).length := by
      simp
    have hre2 : pre ++ ('#' :: (cs ++ '\n' :: rest)) = pre ++ ('#' :: (cs ++ ['\n'])) ++ rest := by
      simp
    have hsl : sliceStr (pre ++ ('#' :: (cs ++ '\n' :: rest))) pre.length
        (pre.length + (cs.length + 2)) = some (String.mk ('#' :: (cs ++ ['\n']))) := by
      rw [harith, hre2, sliceStr_append]
    rw [hsl]

/-! ## Numeric and double-constant scanning lemmas -/

theorem uint32_le_toNat {a b : UInt32} (h : a ≤ b) : a.toNat ≤ b.toNat := by
  rw [UInt32.le_def, BitVec.le_def] at h
  exact h

theorem isDigit_toNat (c : Char) (h : c.isDigit = true) : 48 ≤ c.toNat ∧ c.toNat ≤ 57 := by
  simp only [Char.isDigit, Bool.and_eq_true, decide_eq_true_eq] at h
  obtain ⟨h1, h2⟩ := h
  constructor
  · exact uint32_le_toNat h1
  · exact uint32_le_toNat h2

theorem isAlpha_toNat (c : Char) (h : c.isAlpha = true) :
    (65 ≤ c.toNat ∧ c.toNat ≤ 90) ∨ (97 ≤ c.toNat ∧ c.toNat ≤ 122) := by
  simp only [Char.isAlpha, Char.isUpper, Char.isLower, Bool.or_eq_true, Bool.and_eq_true,
    decide_eq_true_eq] at h
  rcases h with ⟨h1, h2⟩ | ⟨h1, h2⟩
  · exact Or.inl ⟨uint32_le_toNat h1, uint32_le_toNat h2⟩
  · exact Or.inr ⟨uint32_le_toNat h1, uint32_le_toNat h2⟩

theorem ne_of_toNat_ne {c d : Char} (h : c.toNat ≠ d.toNat) : c ≠ d :=
  fun he => h (congrArg Char.toNat he)

/-- Character-class facts for a character that can start the numeric branch. -/
theorem numeric_start_facts (c : Char) (h : c = '+' ∨ c = '-' ∨ c.isDigit = true) :
    ¬ c = '\n' ∧ ¬ c = '\r' ∧ ¬ (c = ' ' ∨ c = '\t') ∧ ¬ c = '/' ∧ ¬ c = '#' ∧
    ¬ (c.isAlpha = true ∨ c = '_') ∧ ¬ (c = '\'' ∨ c = '"') := by
  rcases h with rfl | rfl | hd
  · refine ⟨by decide, by decide, by decide, by decide, by decide, ?_, by decide⟩
    rintro (ha | he)
    · exact absurd ha (by decide)
    · exact absurd he (by decide)
  · refine ⟨by decide, by decide, by decide, by decide, by decide, ?_, by decide⟩
    rintro (ha | he)
    · exact absurd ha (by decide)
    · exact absurd he (by decide)
  · obtain ⟨hlo, hhi⟩ := isDigit_toNat c hd
    refine ⟨?_, ?_, ?_, ?_, ?_, ?_, ?_⟩
    · exact ne_of_toNat_ne (by rw [show ('\n').toNat = 10 from rfl]; omega)
    · exact ne_of_toNat_ne (by rw [show ('\r').toNat = 13 from rfl]; omega)
    · rintro (he | he)
      · exact ne_of_toNat_ne (c := c) (d := ' ')
          (by rw [show (' ').toNat = 32 from rfl]; omega) he
      · exact ne_of_toNat_ne (c := c) (d := '\t')
          (by rw [show ('\t').toNat = 9 from rfl]; omega) he
    · exact ne_of_toNat_ne (by rw [show ('/').toNat = 47 from rfl]; omega)
    · exact ne_of_toNat_ne (by rw [show ('#').toNat = 35 from rfl]; omega)
    · rintro (ha | he)
      · rcases isAlpha_toNat c ha with ⟨h1, h2⟩ | ⟨h1, h2⟩ <;> omega
      · exact ne_of_toNat_ne (c := c) (d := '_')
          (by rw [show ('_').toNat = 95 from rfl]; omega) he
    · rintro (he | he)
      · exact ne_of_toNat_ne (c := c) (d := '\'')
          (by rw [show ('\'').toNat = 39 from rfl]; omega) he
      · exact ne_of_toNat_ne (c := c) (d := '"')
          (by rw [show ('"').toNat = 34 from rfl]; omega) he

theorem digit_not_sign (c : Char) (h : c.isDigit = true) : ¬(c = '+' ∨ c = '-') := by
  rintro (rfl | rfl) <;> exact absurd h (by decide)

theorem scanIntLoop_digits (pos : Nat) (ds : List Char) :
    ∀ (fuel : Nat) (A rest : List Char) (offset : Nat), A.length = pos + offset →
    (∀ c ∈ ds, c.isDigit = true) → 0 < offset →
    (∀ c, rest.get? 0 = some c → ¬ c.isDigit = true) → ds.length < fuel →
    scanIntLoop (A ++ (ds ++ rest)) fuel pos offset = offset + ds.length := by
  induction ds with
  | nil =>
    intro fuel A rest offset hA hds hoff hrest hf
    obtain ⟨f, rfl⟩ : ∃ f, fuel = f + 1 := ⟨fuel - 1, by omega⟩
    simp only [scanIntLoop]
    rw [← hA]
    simp only [List.nil_append]
    rw [Thrift.get?_append_len]
    match hr : rest.get? 0 with
    | none => simp
    | some c =>
      have hnd := hrest c hr
      dsimp only
      by_cases hsg : c = '+' ∨ c = '-'
      · rw [if_pos ⟨hoff, hsg⟩]
        simp
      · rw [if_neg (by rintro ⟨-, hs⟩; exact hsg hs)]
        rw [if_neg (by rintro (hd | hs | hs)
                       · exact hnd hd
                       · exact hsg (Or.inl hs)
                       · exact hsg (Or.inr hs))]
        simp
  | cons d ds ih =>
    intro fuel A rest offset hA hds hoff hrest hf
    obtain ⟨f, rfl⟩ : ∃ f, fuel = f + 1 := ⟨fuel - 1, by omega⟩
    simp only [scanIntLoop]
    rw [← hA]
    have hg : (A ++ ((d :: ds) ++ rest)).get? A.length = some d := by
      rw [Thrift.get?_append_len]; rfl
    rw [hg]
    dsimp only
    have hd : d.isDigit = true := hds d (List.mem_cons_self d ds)
    rw [if_neg (by rintro ⟨-, hs⟩; exact digit_not_sign d hd hs)]
    rw [if_pos (Or.inl hd)]
    have hre : A ++ ((d :: ds) ++ rest) = (A ++ [d]) ++ (ds ++ rest) := by simp
    rw [hre, ih f (A ++ [d]) rest (offset + 1) (by simp [hA]; omega)
        (fun c hc => hds c (List.mem_cons_of_mem d hc)) (by omega) hrest (by simp at hf; omega)]
    simp
    omega

theorem scanIntConstant_sign_spec (pre ds rest : List Char) (sgn : Char)
    (hsgn : sgn = '+' ∨ sgn = '-') (hne : ds ≠ []) (hds : ∀ c ∈ ds, c.isDigit = true)
    (hrest : ∀ c, rest.get? 0 = some c → ¬ c.isDigit = true) :
    scanIntConstant (pre ++ ([sgn] ++ (ds ++ rest))) pre.length
      = ([sgn].length + ds.length, true) := by
  have hg : (pre ++ ([sgn] ++ (ds ++ rest))).get? pre.length = some sgn := by
    rw [Thrift.get?_append_len]; rfl
  have hnd : ds.length ≠ 0 := by
    cases ds with
    | nil => exact absurd rfl hne
    | cons a l => simp
  have hlen : (pre ++ ([sgn] ++ (ds ++ rest))).length
      = pre.length + ds.length + rest.length + 1 := by
    simp
    omega
  unfold scanIntConstant
  rw [hg]
  dsimp only
  rw [if_pos (Or.inr hsgn)]
  have hloop : scanIntLoop (pre ++ ([sgn] ++ (ds ++ rest)))
      ((pre ++ ([sgn] ++ (ds ++ rest))).length + 1) pre.length 0 = 1 + ds.length := by
    obtain ⟨f, hf⟩ : ∃ f, (pre ++ ([sgn] ++ (ds ++ rest))).length + 1 = f + 1 := ⟨_, rfl⟩
    rw [hf]
    simp only [scanIntLoop]
    have hg0 : (pre ++ ([sgn] ++ (ds ++ rest))).get? (pre.length + 0) = some sgn := by
      rw [Nat.add_zero, Thrift.get?_append_len]; rfl
    rw [hg0]
    dsimp only
    rw [if_neg (by rintro ⟨h0, -⟩; omega)]
    rw [if_pos (Or.inr hsgn)]
    have hre : pre ++ ([sgn] ++ (ds ++ rest)) = (pre ++ [sgn]) ++ (ds ++ rest) := by simp
    rw [hre]
    have hfb : ds.length < f := by
      have hfe : f = (pre ++ ([sgn] ++ (ds ++ rest))).length := by omega
      rw [hfe, hlen]
      omega
    rw [scanIntLoop_digits pre.length ds f (pre ++ [sgn]) rest 1 (by simp) hds (by omega)
        hrest hfb]
  rw [hloop]
  rw [if_pos (by omega)]
  simp

theorem scanIntConstant_spec (pre sign ds rest : List Char)
    (hsign : sign = [] ∨ sign = ['+'] ∨ sign = ['-'])
    (hne : ds ≠ []) (hds : ∀ c ∈ ds, c.isDigit = true)
    (hrest : ∀ c, rest.get? 0 = some c → ¬ c.isDigit = true) :
    scanIntConstant (pre ++ (sign ++ (ds ++ rest))) pre.length
      = (sign.length + ds.length, true) := by
  obtain ⟨d0, ds', rfl⟩ : ∃ d0 ds', ds = d0 :: ds' := by
    cases ds with
    | nil => exact absurd rfl hne
    | cons a l => exact ⟨a, l, rfl⟩
  have hd0 : d0.isDigit = true := hds d0 (List.mem_cons_self d0 ds')
  have hlen : (pre ++ (sign ++ ((d0 :: ds') ++ rest))).length
      = pre.length + sign.length + ds'.length + rest.length + 1 := by
    simp
    omega
  rcases hsign with rfl | rfl | rfl
  · -- no sign
    have hg : (pre ++ ([] ++ ((d0 :: ds') ++ rest))).get? pre.length = some d0 := by
      rw [Thrift.get?_append_len]; rfl
    unfold scanIntConstant
    rw [hg]
    dsimp only
    rw [if_pos (Or.inl hd0)]
    -- first loop step consumes d0
    have hloop : scanIntLoop (pre ++ ([] ++ ((d0 :: ds') ++ rest)))
        ((pre ++ ([] ++ ((d0 :: ds') ++ rest))).length + 1) pre.length 0 = 1 + ds'.length := by
      obtain ⟨f, hf⟩ : ∃ f, (pre ++ ([] ++ ((d0 :: ds') ++ rest))).length + 1 = f + 1 :=
        ⟨_, rfl⟩
      rw [hf]
      simp only [scanIntLoop]
      have hg0 : (pre ++ ([] ++ ((d0 :: ds') ++ rest))).get? (pre.length + 0) = some d0 := by
        rw [Nat.add_zero, Thrift.get?_append_len]; rfl
      rw [hg0]
      dsimp only
      rw [if_neg (by rintro ⟨h0, -⟩; omega)]
      rw [if_pos (Or.inl hd0)]
      have hre : pre ++ ([] ++ ((d0 :: ds') ++ rest)) = (pre ++ [d0]) ++ (ds' ++ rest) := by
        simp
      rw [hre]
      have hfb : ds'.length < f := by
        have hfe : f = (pre ++ ([] ++ ((d0 :: ds') ++ rest))).length := by omega
        rw [hfe, hlen]
        omega
      rw [scanIntLoop_digits pre.length ds' f ((pre ++ [d0])) rest 1 (by simp)
          (fun c hc => hds c (List.mem_cons_of_mem d0 hc)) (by omega) hrest hfb]
    rw [hloop]
    by_cases hone : 1 < 1 + ds'.length
    · rw [if_pos hone]
      simp
      omega
    · rw [if_neg hone]
      have hz : ds'.length = 0 := by omega
      simp [hz, digit_not_sign d0 hd0]
  · exact scanIntConstant_sign_spec pre (d0 :: ds') rest '+' (Or.inl rfl) hne hds hrest
  · exact scanIntConstant_sign_spec pre (d0 :: ds') rest '-' (Or.inr rfl) hne hds hrest

theorem fromString_ne_double (s d : String) :
    TokenKind.fromString s ≠ some (TokenKind.DoubleConstant d) := by
  unfold TokenKind.fromString
  split <;> simp

theorem fromChar_ne_double (c : Char) (d : String) :
    TokenKind.fromChar c ≠ some (TokenKind.DoubleConstant d) := by
  unfold TokenKind.fromChar
  split <;> simp

theorem scanDoubleConstant_cases (input : List Char) (pos : Nat) :
    scanDoubleConstant input pos = (0, false) ∨
    (scanDoubleConstant input pos).2 = hasDigitIn input pos (scanDoubleConstant input pos).1 := by
  unfold scanDoubleConstant
  split
  · exact Or.inl rfl
  · split
    · exact Or.inl rfl
    · exact Or.inr rfl

theorem scanDoubleConstant_hasDigit (input : List Char) (pos : Nat)
    (h : (scanDoubleConstant input pos).2 = true) :
    hasDigitIn input pos (scanDoubleConstant input pos).1 = true := by
  rcases scanDoubleConstant_cases input pos with h0 | h0
  · rw [h0] at h
    exact absurd h (by simp)
  · rw [← h0]
    exact h

theorem numericStep_cases (input : List Char) (pos : Nat) :
    (∃ n, numericStep input pos = (n, true, false)) ∨
    numericStep input pos
      = ((scanDoubleConstant input pos).1, false, (scanDoubleConstant input pos).2) ∨
    ((scanDoubleConstant input pos).2 = true ∧
     numericStep input pos = ((scanDoubleConstant input pos).1, false, true)) := by
  simp only [numericStep]
  split
  · exact Or.inr (Or.inl rfl)
  · split
    · split
      · split
        · next hcond => exact Or.inr (Or.inr ⟨hcond, rfl⟩)
        · exact Or.inl ⟨_, rfl⟩
      · exact Or.inl ⟨_, rfl⟩
    · exact Or.inl ⟨_, rfl⟩

theorem hasDigitIn_spec (input : List Char) (pos : Nat) :
    ∀ n, hasDigitIn input pos n = true →
      ∃ i, i < n ∧ ∃ c, input.get? (pos + i) = some c ∧ c.isDigit = true := by
  intro n
  induction n with
  | zero => intro h; exact absurd h (by simp [hasDigitIn])
  | succ m ih =>
    intro h
    rw [hasDigitIn] at h
    rcases Bool.or_eq_true_iff.mp h with h1 | h2
    · obtain ⟨i, hi, c, hc⟩ := ih h1
      exact ⟨i, by omega, c, hc⟩
    · revert h2
      match hm : input.get? (pos + m) with
      | none => intro h2; exact absurd h2 (by simp)
      | some c => intro h2; exact ⟨m, by omega, c, hm, h2⟩

theorem sliceStr_any_digit (input : List Char) (a b : Nat) (s : String)
    (hs : sliceStr input a b = some s)
    (hdig : ∃ i, a + i < b ∧ ∃ c, input.get? (a + i) = some c ∧ c.isDigit = true) :
    s.data.any Char.isDigit = true := by
  obtain ⟨i, hib, c, hget, hc⟩ := hdig
  unfold sliceStr at hs
  split at hs
  · next hcond =>
    injection hs with hs
    subst hs
    show ((input.drop a).take (b - a)).any Char.isDigit = true
    rw [List.any_eq_true]
    refine ⟨c, ?_, hc⟩
    have h1 : ((input.drop a).take (b - a)).get? i = (input.drop a).get? i := by
      apply List.get?_take
      omega
    have h2 : (input.drop a).get? i = input.get? (a + i) := by
      rw [List.get?_drop]
    exact List.get?_mem (by rw [h1, h2]; exact hget)
  · exact absurd hs (by simp)

theorem sliceStr_digit_of_hasDigitIn (input : List Char) (pos n : Nat) (s : String)
    (hs : sliceStr input pos (pos + n) = some s)
    (hd : hasDigitIn input pos n = true) :
    s.data.any Char.isDigit = true := by
  obtain ⟨i, hi, c, hget, hc⟩ := hasDigitIn_spec input pos n hd
  exact sliceStr_any_digit input pos (pos + n) s hs ⟨i, by omega, c, hget, hc⟩

theorem kind_eq_of_some_eq {a : Token × Option Error × ScannerState}
    {tok : Token} {err : Option Error} {st' : ScannerState}
    (h : some a = some (tok, err, st')) : a.1.kind = tok.kind := by
  have := Option.some.inj h
  rw [this]

theorem scanGo_double_has_digit (input : List Char) :
    ∀ (fuel : Nat) (st : ScannerState) (tok : Token) (err : Option Error) (st' : ScannerState)
      (s : String), scanGo input fuel st = some (tok, err, st') →
      tok.kind = TokenKind.DoubleConstant s → s.data.any Char.isDigit = true := by
  intro fuel
  induction fuel with
  | zero => intro st tok err st' s h; exact absurd h (by simp [scanGo])
  | succ f ih =>
    intro st tok err st' s h hkind
    rw [scanGo] at h
    split at h
    · have hk := kind_eq_of_some_eq h
      rw [hkind] at hk
      exact TokenKind.noConfusion hk
    · next ch hch =>
      by_cases h1 : ch = '\n'
      · rw [if_pos h1] at h
        exact ih _ _ _ _ _ h hkind
      · rw [if_neg h1] at h
        by_cases h2 : ch = '\r'
        · rw [if_pos h2] at h
          by_cases h2b : input.get? (st.offset + 1) = some '\n'
          · rw [if_pos h2b] at h
            exact ih _ _ _ _ _ h hkind
          · rw [if_neg h2b] at h
            exact ih _ _ _ _ _ h hkind
        · rw [if_neg h2] at h
          by_cases h3 : ch = ' ' ∨ ch = '\t'
          · rw [if_pos h3] at h
            exact ih _ _ _ _ _ h hkind
          · rw [if_neg h3] at h
            by_cases h4 : ch = '/'
            · rw [if_pos h4] at h
              by_cases h5 : input.length ≤ st.offset + 1
              · rw [if_pos h5] at h
                have hk := kind_eq_of_some_eq h
                rw [hkind] at hk
                exact TokenKind.noConfusion hk
              · rw [if_neg h5] at h
                by_cases h6 : (scanLineComment input st.offset).2 = true
                · rw [if_pos h6] at h
                  split at h
                  · exact Option.noConfusion h
                  · have hk := kind_eq_of_some_eq h
                    rw [hkind] at hk
                    exact TokenKind.noConfusion hk
                · rw [if_neg h6] at h
                  by_cases h7 :
                      (scanBlockComment input (2 * input.length + 4) st.offset).2.2.2 = true
                  · rw [if_pos h7] at h
                    split at h
                    · exact Option.noConfusion h
                    · have hk := kind_eq_of_some_eq h
                      rw [hkind] at hk
                      exact TokenKind.noConfusion hk
                  · rw [if_neg h7] at h
                    split at h
                    · exact Option.noConfusion h
                    · have hk := kind_eq_of_some_eq h
                      rw [hkind] at hk
                      exact TokenKind.noConfusion hk
            · rw [if_neg h4] at h
              by_cases h8 : ch = '#'
              · rw [if_pos h8] at h
                dsimp only at h
                split at h
                · exact Option.noConfusion h
                · have hk := kind_eq_of_some_eq h
                  rw [hkind] at hk
                  exact TokenKind.noConfusion hk
              · rw [if_neg h8] at h
                by_cases h9 : ch.isAlpha = true ∨ ch = '_'
                · rw [if_pos h9] at h
                  dsimp only at h
                  split at h
                  · exact Option.noConfusion h
                  · next value hsl =>
                    have hK : tok.kind = (match TokenKind.fromString value with
                        | some tok0 => tok0
                        | none => TokenKind.Identifier value) := (kind_eq_of_some_eq h).symm
                    rcases hfs : TokenKind.fromString value with _ | tok0
                    · rw [hfs] at hK
                      have hK2 : tok.kind = TokenKind.Identifier value := hK
                      rw [hkind] at hK2
                      exact TokenKind.noConfusion hK2
                    · rw [hfs] at hK
                      have hK2 : tok.kind = tok0 := hK
                      rw [hkind] at hK2
                      rw [← hK2] at hfs
                      exact absurd hfs (fromString_ne_double _ _)
                · rw [if_neg h9] at h
                  by_cases h10 : ch = '\'' ∨ ch = '"'
                  · rw [if_pos h10] at h
                    dsimp only at h
                    split at h
                    · exact Option.noConfusion h
                    · by_cases h11 : (scanLiteral input st.offset ch).2.2.2 = true
                      · rw [if_pos h11] at h
                        have hk := kind_eq_of_some_eq h
                        rw [hkind] at hk
                        exact TokenKind.noConfusion hk
                      · rw [if_neg h11] at h
                        have hk := kind_eq_of_some_eq h
                        rw [hkind] at hk
                        exact TokenKind.noConfusion hk
                  · rw [if_neg h10] at h
                    by_cases h12 : ch = '+' ∨ ch = '-' ∨ ch.isDigit = true
                    · rw [if_pos h12] at h
                      dsimp only at h
                      split at h
                      · exact Option.noConfusion h
                      · next value hslice =>
                        have hK : tok.kind =
                            (if (numericStep input st.offset).2.1 then
                              TokenKind.IntConstant value
                            else if (numericStep input st.offset).2.2 then
                              TokenKind.DoubleConstant value
                            else TokenKind.InvalidString value) := (kind_eq_of_some_eq h).symm
                        rcases numericStep_cases input st.offset with
                          ⟨n, heq⟩ | heq | ⟨hcond, heq⟩
                        · rw [heq] at hK
                          have hK2 : tok.kind = TokenKind.IntConstant value := hK
                          rw [hkind] at hK2
                          exact TokenKind.noConfusion hK2
                        · rw [heq] at hK hslice
                          have hK2 : tok.kind =
                              (if (scanDoubleConstant input st.offset).2 then
                                TokenKind.DoubleConstant value
                              else TokenKind.InvalidString value) := hK
                          have hslice2 : sliceStr input st.offset
                              (st.offset + (scanDoubleConstant input st.offset).1)
                              = some value := hslice
                          by_cases hb : (scanDoubleConstant input st.offset).2 = true
                          · rw [if_pos hb] at hK2
                            rw [hkind] at hK2
                            injection hK2 with hv
                            subst hv
                            exact sliceStr_digit_of_hasDigitIn input st.offset _ _ hslice2
                              (scanDoubleConstant_hasDigit input st.offset hb)
                          · rw [if_neg hb] at hK2
                            rw [hkind] at hK2
                            exact TokenKind.noConfusion hK2
                        · rw [heq] at hK hslice
                          have hK2 : tok.kind = TokenKind.DoubleConstant value := hK
                          have hslice2 : sliceStr input st.offset
                              (st.offset + (scanDoubleConstant input st.offset).1)
                              = some value := hslice
                          rw [hkind] at hK2
                          injection hK2 with hv
                          subst hv
                          exact sliceStr_digit_of_hasDigitIn input st.offset _ _ hslice2
                            (scanDoubleConstant_hasDigit input st.offset hcond)
                    · rw [if_neg h12] at h
                      by_cases h13 : ch = '.'
                      · rw [if_pos h13] at h
                        dsimp only at h
                        split at h
                        · exact Option.noConfusion h
                        · next value hslice =>
                          have hK : tok.kind =
                              (if ¬(scanDoubleConstant input st.offset).2 then
                                TokenKind.InvalidString value
                              else TokenKind.DoubleConstant value) := (kind_eq_of_some_eq h).symm
                          by_cases hb : (scanDoubleConstant input st.offset).2 = true
                          · rw [if_neg (not_not_intro hb)] at hK
                            rw [hkind] at hK
                            injection hK with hv
                            subst hv
                            exact sliceStr_digit_of_hasDigitIn input st.offset _ _ hslice
                              (scanDoubleConstant_hasDigit input st.offset hb)
                          · rw [if_pos hb] at hK
                            rw [hkind] at hK
                            exact TokenKind.noConfusion hK
                      · rw [if_neg h13] at h
                        have hK : tok.kind = (match TokenKind.fromChar ch with
                            | some tok0 => tok0
                            | none => TokenKind.Invalid ch) := (kind_eq_of_some_eq h).symm
                        rcases hfc : TokenKind.fromChar ch with _ | tok0
                        · rw [hfc] at hK
                          have hK2 : tok.kind = TokenKind.Invalid ch := hK
                          rw [hkind] at hK2
                          exact TokenKind.noConfusion hK2
                        · rw [hfc] at hK
                          have hK2 : tok.kind = tok0 := hK
                          rw [hkind] at hK2
                          rw [← hK2] at hfc
                          exact absurd hfc (fromChar_ne_double _ _)

theorem numericStep_int (pre sign ds rest : List Char)
    (hsign : sign = [] ∨ sign = ['+'] ∨ sign = ['-'])
    (hne : ds ≠ []) (hds : ∀ c ∈ ds, c.isDigit = true)
    (hrd : ∀ c, rest.get? 0 = some c → ¬ c.isDigit = true)
    (hrf : ∀ c, rest.get? 0 = some c → ¬(c = '.' ∨ c = 'e' ∨ c = 'E')) :
    numericStep (pre ++ (sign ++ (ds ++ rest))) pre.length
      = (sign.length + ds.length, true, false) := by
  have hint := scanIntConstant_spec pre sign ds rest hsign hne hds hrd
  simp only [numericStep]
  rw [hint]
  dsimp only
  rw [if_neg (by simp)]
  have hre : pre ++ (sign ++ (ds ++ rest)) = ((pre ++ sign) ++ ds) ++ rest := by simp
  have hg2 : (pre ++ (sign ++ (ds ++ rest))).get? (pre.length + (sign.length + ds.length))
      = rest.get? 0 := by
    rw [hre]
    have harith : pre.length + (sign.length + ds.length) = ((pre ++ sign) ++ ds).length := by
      simp
    rw [harith, Thrift.get?_append_len]
  rw [hg2]
  match hr : rest.get? 0 with
  | none => rfl
  | some c =>
    dsimp only
    rw [if_neg (hrf c hr)]

theorem scan_int_constant_run (pre sign ds rest : List Char) (line col : Nat)
    (hsign : sign = [] ∨ sign = ['+'] ∨ sign = ['-'])
    (hne : ds ≠ []) (hds : ∀ c ∈ ds, c.isDigit = true)
    (hrd : ∀ c, rest.get? 0 = some c → ¬ c.isDigit = true)
    (hrf : ∀ c, rest.get? 0 = some c → ¬(c = '.' ∨ c = 'e' ∨ c = 'E')) :
    scan (pre ++ (sign ++ (ds ++ rest))) ⟨pre.length, line, col⟩ =
      some ({ kind := .IntConstant (String.mk (sign ++ ds)), position := ⟨line, col⟩ }, none,
            ⟨pre.length + (sign.length + ds.length), line, col + (sign.length + ds.length)⟩) := by
  obtain ⟨c0, tail, hc0tail, hc0⟩ :
      ∃ c0 tail, sign ++ (ds ++ rest) = c0 :: tail ∧ (c0 = '+' ∨ c0 = '-' ∨ c0.isDigit = true) := by
    rcases hsign with rfl | rfl | rfl
    · cases ds with
      | nil => exact absurd rfl hne
      | cons d l =>
        exact ⟨d, l ++ rest, by simp, Or.inr (Or.inr (hds d (List.mem_cons_self d l)))⟩
    · exact ⟨'+', ds ++ rest, by simp, Or.inl rfl⟩
    · exact ⟨'-', ds ++ rest, by simp, Or.inr (Or.inl rfl)⟩
  have hg : (pre ++ (sign ++ (ds ++ rest))).get? pre.length = some c0 := by
    rw [Thrift.get?_append_len, hc0tail]
    rfl
  obtain ⟨hf1, hf2, hf3, hf4, hf5, hf6, hf7⟩ := numeric_start_facts c0 hc0
  rw [scan.eq_def]
  simp only [scanGo]
  split
  · next heq => rw [hg] at heq; exact absurd heq (by simp)
  · next ch heq =>
    rw [hg] at heq
    injection heq with heq
    subst heq
    rw [if_neg hf1, if_neg hf2, if_neg hf3, if_neg hf4, if_neg hf5, if_neg hf6, if_neg hf7,
        if_pos hc0]
    dsimp only
    rw [numericStep_int pre sign ds rest hsign hne hds hrd hrf]
    have hsl : sliceStr (pre ++ (sign ++ (ds ++ rest))) pre.length
        (pre.length + ((sign.length + ds.length, true, false) : Nat × Bool × Bool).1)
        = some (String.mk (sign ++ ds)) := by
      have hre : pre ++ (sign ++ (ds ++ rest)) = pre ++ (sign ++ ds) ++ rest := by simp
      have harith : pre.length + ((sign.length + ds.length, true, false) : Nat × Bool × Bool).1
          = pre.length + (sign ++ ds).length := by simp
      rw [harith, hre, sliceStr_append]
    rw [hsl]
    rfl

/-! ## Claim C8 -/

/-- C8 (confirmed): numeric scanning.
(a) A bare `+` or `-` buffer produces an `InvalidString` token, neither an
`IntConstant` nor a `DoubleConstant`.
(b) `.5` and `5.` both produce a `DoubleConstant`.
(c) For every input buffer and scanner state, a token produced by
`Scanner::scan` is a `DoubleConstant` only if its text contains at least
one digit (so `e` alone is never numeric — a fortiori, since it scans as
an identifier).
(d) Every maximal `[+-]?[0-9]+` run not followed by `.`, `e` or `E` yields
an `IntConstant` consisting of exactly those characters. -/
theorem c8_numeric_scanning :
    (scan ['+'] initScannerState =
       some ({ kind := .InvalidString "+", position := ⟨1, 1⟩ }, none, ⟨1, 1, 2⟩) ∧
     scan ['-'] initScannerState =
       some ({ kind := .InvalidString "-", position := ⟨1, 1⟩ }, none, ⟨1, 1, 2⟩)) ∧
    (scan ['.', '5'] initScannerState =
       some ({ kind := .DoubleConstant ".5", position := ⟨1, 1⟩ }, none, ⟨2, 1, 3⟩) ∧
     scan ['5', '.'] initScannerState =
       some ({ kind := .DoubleConstant "5.", position := ⟨1, 1⟩ }, none, ⟨2, 1, 3⟩)) ∧
    (∀ (input : List Char) (st : ScannerState) (tok : Token) (err : Option Error)
       (st' : ScannerState) (s : String), scan input st = some (tok, err, st') →
       tok.kind = TokenKind.DoubleConstant s → s.data.any Char.isDigit = true) ∧
    (∀ (pre sign ds rest : List Char) (line col : Nat),
       (sign = [] ∨ sign = ['+'] ∨ sign = ['-']) → ds ≠ [] → (∀ c ∈ ds, c.isDigit = true) →
       (∀ c, rest.get? 0 = some c → ¬ c.isDigit = true) →
       (∀ c, rest.get? 0 = some c → ¬(c = '.' ∨ c = 'e' ∨ c = 'E')) →
       scan (pre ++ (sign ++ (ds ++ rest))) ⟨pre.length, line, col⟩ =
         some ({ kind := .IntConstant (String.mk (sign ++ ds)), position := ⟨line, col⟩ }, none,
               ⟨pre.length + (sign.length + ds.length), line,
                col + (sign.length + ds.length)⟩)) := by
  refine ⟨⟨rfl, rfl⟩, ⟨rfl, rfl⟩, ?_, ?_⟩
  · intro input st tok err st' s h hkind
    exact scanGo_double_has_digit input (input.length + 1) st tok err st' s h hkind
  · intro pre sign ds rest line col hsign hne hds hrd hrf
    exact scan_int_constant_run pre sign ds rest line col hsign hne hds hrd hrf

/-- C8 witness: the universally quantified parts evaluated on concrete
buffers — `+42 ` scans to `IntConstant "+42"`, and the `DoubleConstant`
produced from `.5` indeed contains a digit. -/
theorem c8_numeric_scanning_witness :
    scan ['+', '4', '2', ' '] ⟨0, 1, 1⟩ =
      some ({ kind := .IntConstant (String.mk ['+', '4', '2']), position := ⟨1, 1⟩ }, none,
            ⟨3, 1, 4⟩) ∧
    (".5" : String).data.any Char.isDigit = true := by
  constructor
  · exact c8_numeric_scanning.2.2.2 [] ['+'] ['4', '2'] [' '] 1 1 (Or.inr (Or.inl rfl))
      (by decide) (by decide)
      (fun c hc => by injection hc with hc; subst hc; decide)
      (fun c hc => by injection hc with hc; subst hc; decide)
  · exact c8_numeric_scanning.2.2.1 ['.', '5'] initScannerState
      { kind := .DoubleConstant ".5", position := ⟨1, 1⟩ } none ⟨2, 1, 3⟩ ".5" rfl rfl

/-! ## Claim C2 -/

/-- C2 (code bug): the claim states that whenever a `/*` is reached and the
end of input arrives before the matching close, `Scanner::scan` returns
normally with an `InvalidString` token and an error starting with "Unclosed
block comment" — including for the buffer consisting of exactly `/*`.  On
that buffer `scan_block_comment` falls out of its while loop and returns
`ok = true` (first conjunct), so `Scanner::scan` takes the `BlockComment`
branch and evaluates the slice `input[start+2 .. start+offset-2]`
= `input[2..0]`, which panics in Rust (second conjunct: the embedded `scan`
returns `none`, the model of a panic).  No `InvalidString` token and no
error are produced, contradicting the claim and the scanner's own intent
(its `!ok` branch builds exactly that token and error). -/
theorem c2_unclosed_block_comment_panics :
    scanBlockComment ['/', '*'] (2 * 2 + 4) 0 = (2, 0, 2, true) ∧
    scan ['/', '*'] initScannerState = none := by
  constructor
  · rfl
  · rfl

/-! ## Claim C7 -/

/-- C7 (counterexample): scanning the newline-terminated line comment
`//a\n` yields a `Comment` token whose stored content is `"a\n"` — it
includes the trailing newline — and whose range end column is 5.  The last
non-newline character of the comment (`a`) sits at column 3, so the claim
("the token's range end column is one past the last non-newline character")
demands end column 4; the code gives 5. -/
theorem c7_line_comment_len_counterexample :
    scan ['/', '/', 'a', '\n'] initScannerState =
      some ({ kind := .Comment (String.mk ['a', '\n']), position := ⟨1, 1⟩ }, none, ⟨4, 2, 1⟩) ∧
    (Token.range { kind := .Comment (String.mk ['a', '\n']), position := ⟨1, 1⟩ }).stop.column = 5 ∧
    (Token.range { kind := .Comment (String.mk ['a', '\n']), position := ⟨1, 1⟩ }).stop.column ≠ 4 := by
  refine ⟨rfl, rfl, by decide⟩

/-- C7 (amended): `TokenKind::len` is the stored content's byte length plus
the fixed lead width (2 for `//`, 1 for `#`), but a newline-terminated line
comment's stored content includes its trailing newline and a pound
comment's stored content includes its leading `#` and terminator.  Hence
for every line comment `//cs\n` of ASCII characters scanned at column
`col`, the produced token is `Comment (cs ++ "\n")` and its range end
column is `col + cs.length + 3` — two past the last non-newline character,
not one past as the original claim states; a pound comment `#cs\n` yields
`PoundComment ("#" ++ cs ++ "\n")` with the same end column
`col + cs.length + 3`. -/
theorem c7_comment_token_ranges (pre cs rest : List Char) (line col : Nat)
    (hnl : '\n' ∉ cs) (hcr : '\r' ∉ cs) (hascii : ∀ c ∈ cs, c.toNat < 128) :
    (scan (pre ++ ('/' :: '/' :: (cs ++ '\n' :: rest))) ⟨pre.length, line, col⟩ =
       some ({ kind := .Comment (String.mk (cs ++ ['\n'])), position := ⟨line, col⟩ }, none,
             ⟨pre.length + (cs.length + 3), line + 1, 1⟩) ∧
     (Token.range { kind := TokenKind.Comment (String.mk (cs ++ ['\n'])),
                    position := ⟨line, col⟩ }).stop.column = col + cs.length + 3) ∧
    (scan (pre ++ ('#' :: (cs ++ '\n' :: rest))) ⟨pre.length, line, col⟩ =
       some ({ kind := .PoundComment (String.mk ('#' :: (cs ++ ['\n']))),
               position := ⟨line, col⟩ }, none,
             ⟨pre.length + (cs.length + 2), line + 1, 1⟩) ∧
     (Token.range { kind := TokenKind.PoundComment (String.mk ('#' :: (cs ++ ['\n']))),
                    position := ⟨line, col⟩ }).stop.column = col + cs.length + 3) := by
  have hasciiNl : ∀ c ∈ cs ++ ['\n'], c.toNat < 128 := by
    intro c hc
    rcases List.mem_append.mp hc with h | h
    · exact hascii c h
    · simp at h
      subst h
      decide
  have hasciiP : ∀ c ∈ '#' :: (cs ++ ['\n']), c.toNat < 128 := by
    intro c hc
    rcases List.mem_cons.mp hc with h | h
    · subst h; decide
    · exact hasciiNl c h
  refine ⟨⟨scan_line_comment_run pre cs rest line col hnl, ?_⟩,
          ⟨scan_pound_comment_run pre cs rest line col hnl hcr, ?_⟩⟩
  · show col + ((String.mk (cs ++ ['\n'])).utf8ByteSize + 2) = col + cs.length + 3
    rw [utf8ByteSize_mk_ascii _ hasciiNl]
    simp
    omega
  · show col + ((String.mk ('#' :: (cs ++ ['\n']))).utf8ByteSize + 1) = col + cs.length + 3
    rw [utf8ByteSize_mk_ascii _ hasciiP]
    simp
    omega

/-- C7 witness: the amended statement evaluated on the concrete comments
`//a\n` and `#a\n`. -/
theorem c7_comment_token_ranges_witness :
    (scan ['/', '/', 'a', '\n'] ⟨0, 1, 1⟩ =
       some ({ kind := .Comment (String.mk ['a', '\n']), position := ⟨1, 1⟩ }, none, ⟨4, 2, 1⟩) ∧
     (Token.range { kind := TokenKind.Comment (String.mk ['a', '\n']),
                    position := ⟨1, 1⟩ }).stop.column = 5) ∧
    (scan ['#', 'a', '\n'] ⟨0, 1, 1⟩ =
       some ({ kind := .PoundComment (String.mk ['#', 'a', '\n']), position := ⟨1, 1⟩ }, none,
             ⟨3, 2, 1⟩) ∧
     (Token.range { kind := TokenKind.PoundComment (String.mk ['#', 'a', '\n']),
                    position := ⟨1, 1⟩ }).stop.column = 5) :=
  c7_comment_token_ranges [] ['a'] [] 1 1 (by decide) (by decide) (by decide)

/-- `List.lookup` over an appended association list succeeds iff it succeeds
in either part. -/
theorem lookup_append_isSome {α : Type} (l1 l2 : List (String × α)) (n : String) :
    ((l1 ++ l2).lookup n).isSome = ((l1.lookup n).isSome || (l2.lookup n).isSome) := by
  induction l1 with
  | nil => simp [List.lookup]
  | cons a l ih =>
    by_cases h : n == a.1
    · simp [List.lookup, h]
    · simp only [List.cons_append, List.lookup, h]
      exact ih

/-- `process_definition` adds exactly the processed definition's name to the
key set of `types`. -/
theorem processDefinition_key (t : SymbolTable) (d : DefinitionNode) (n : String) :
    (((t.processDefinition d).types).lookup n).isSome = true ↔
      ((t.types.lookup n).isSome = true ∨ d.name = n) := by
  cases t with
  | mk p types incN incs nsp errs =>
    simp only [SymbolTable.processDefinition]
    split
    · next h =>
      simp only [SymbolTable.types]
      constructor
      · exact Or.inl
      · rintro (h1 | rfl)
        · exact h1
        · exact h
    · next h =>
      simp only [SymbolTable.types]
      rw [lookup_append_isSome]
      by_cases he : n = d.name
      · subst he
        simp [List.lookup]
      · have hb : (n == d.name) = false := beq_eq_false_iff_ne.mpr he
        have hne : ¬ d.name = n := fun hh => he hh.symm
        simp [List.lookup, hb, hne]

/-- Keys of the `types` map accumulated by the `new_from_ast` fold. -/
theorem newFromAst_keys (ds : List DefinitionNode) (t : SymbolTable) (n : String) :
    (((ds.foldl SymbolTable.processDefinition t).types).lookup n).isSome = true ↔
      ((t.types.lookup n).isSome = true ∨ ∃ d ∈ ds, d.name = n) := by
  induction ds generalizing t with
  | nil => simp
  | cons d ds ih =>
    rw [List.foldl_cons, ih, processDefinition_key]
    constructor
    · rintro ((h | h) | ⟨d', hd', hn⟩)
      · exact Or.inl h
      · exact Or.inr ⟨d, by simp, h⟩
      · exact Or.inr ⟨d', by simp [hd'], hn⟩
    · rintro (h | ⟨d', hd', hn⟩)
      · exact Or.inl (Or.inl h)
      · rcases List.mem_cons.mp hd' with rfl | hmem
        · exact Or.inl (Or.inr hn)
        · exact Or.inr ⟨d', hmem, hn⟩

/-- C1 (amended): `process_definition` indexes every definition kind —
`Const` included — so a name is a key of the `types` map iff some definition
in the document bears it (the claim's "Const is excluded" part is refuted by
`c1_counterexample`). -/
theorem c1_types_membership (path : String) (document : DocumentNode) (n : String) :
    (((SymbolTable.newFromAst path document).types).lookup n).isSome = true ↔
      ∃ d ∈ document.definitions, d.name = n := by
  rw [SymbolTable.newFromAst, newFromAst_keys]
  simp [SymbolTable.types, List.lookup]

/-- C1 counterexample: a document whose only definition is a `const` named
`MyConst` produces a symbol table in which `MyConst` IS a key of `types`,
contradicting the claim that const names are excluded. -/
theorem c1_counterexample :
    (SymbolTable.newFromAst "a.thrift" c1Doc).types.lookup "MyConst"
      = some (DefinitionNode.Const c1Const) := rfl

/-- C6: a document with exactly two definitions of the same name records
exactly one "Duplicate definition" error, at the second occurrence's range,
and the `types` map keeps the first occurrence only (the document's own
definition list is untouched by table construction). -/
theorem c6_duplicate_definition (path : String) (document : DocumentNode)
    (d1 d2 : DefinitionNode) (hdefs : document.definitions = [d1, d2])
    (hname : d2.name = d1.name) :
    (SymbolTable.newFromAst path document).errors =
      [{ range := d2.range, message := "Duplicate definition: " ++ d2.name }] ∧
    (SymbolTable.newFromAst path document).types = [(d1.name, d1)] ∧
    (SymbolTable.newFromAst path document).types.lookup d1.name = some d1 := by
  rw [SymbolTable.newFromAst, hdefs]
  simp [SymbolTable.processDefinition, SymbolTable.errors, SymbolTable.types,
    List.lookup, hname]

/-- C3 (amended): when the identifier under `pos` is dotted, `pos` lies in
the prefix before the dot, and the dotted lookup through the include tables
succeeds with a header, `definition` returns the queried file itself with
that include header's range.  (Without the added resolution hypothesis the
claim fails: see `c3_counterexample`.) -/
theorem c3_definition_namespace_prefix (st : AState) (path : String) (pos : Position)
    (documentNode : DocumentNode) (identifier : IdentifierNode) (symbolTable : SymbolTable)
    (newPath : String) (d : DefinitionNode) (header : HeaderNode)
    (h1 : st.documentNodes path = some documentNode)
    (h2 : findIdentifier documentNode pos = some identifier)
    (h3 : st.symbolTables path = some symbolTable)
    (h4 : symbolTable.findDefinitionOfIdentifierType identifier
            = some (newPath, d, some header))
    (h5 : identifier.positionInNamespace pos = true) :
    Analyzer.definition st path pos = some { path := path, range := header.range } := by
  simp only [Analyzer.definition, h1, h2, h3, h4, h5, if_true]

/-- C3 counterexample: the queried file has a matching include header for
namespace `a` and the innermost identifier `a.Foo` contains `pos` inside the
prefix, yet `definition` returns `none` because `Foo` is not defined in the
included table — the claim promises the include header's location. -/
theorem c3_counterexample :
    findIdentifier c3Doc c3Pos = some c3Idn ∧
    c3Idn.positionInNamespace c3Pos = true ∧
    (c3Table.includeNodes.lookup "a").isSome = true ∧
    Analyzer.definition c3St "m.thrift" c3Pos = none :=
  ⟨rfl, rfl, rfl, rfl⟩

theorem wsub32_eq_sub (a b : Nat) (ha : a < 2 ^ 32) (hb : b < 2 ^ 32) (hba : b ≤ a) :
    wsub32 a b = a - b := by
  unfold wsub32
  rw [Nat.mod_eq_of_lt ha, Nat.mod_eq_of_lt hb]
  omega

theorem semTokGo_spec (l : List (IdentifierNode × Nat)) :
    ∀ (prevLine prevChar : Nat), prevLine < 2 ^ 32 → prevChar < 2 ^ 32 →
    (∀ p ∈ l, 1 ≤ p.1.range.start.line ∧ p.1.range.start.line < 2 ^ 32 ∧
      1 ≤ p.1.range.start.column ∧ p.1.range.start.column < 2 ^ 32) →
    List.Chain' coordLe (l.map startCoord) →
    (∀ q ∈ (l.map startCoord).head?, coordLe (prevLine, prevChar) q) →
    (semTokGo l prevLine prevChar).length = 5 * l.length ∧
    decodeSemanticTokens (semTokGo l prevLine prevChar) prevLine prevChar =
      some (l.map startCoord) := by
  induction l with
  | nil => intro prevLine prevChar _ _ _ _ _; exact ⟨rfl, rfl⟩
  | cons p rest ih =>
    intro prevLine prevChar hpl hpc hcoords hchain hhead
    obtain ⟨hl1, hl2, hc1, hc2⟩ := hcoords p (by simp)
    have hhd : prevLine < p.1.range.start.line - 1 ∨
        (prevLine = p.1.range.start.line - 1 ∧ prevChar ≤ p.1.range.start.column - 1) := by
      simpa [coordLe, startCoord] using hhead (startCoord p) (by simp)
    have hchain' : List.Chain' coordLe (rest.map startCoord) :=
      (List.chain'_cons'.mp (by simpa using hchain)).2
    have hheadr : ∀ q ∈ (rest.map startCoord).head?, coordLe (startCoord p) q :=
      (List.chain'_cons'.mp (by simpa using hchain)).1
    have hline : wsub32 p.1.range.start.line 1 = p.1.range.start.line - 1 :=
      wsub32_eq_sub _ _ hl2 (by norm_num) hl1
    have hch : wsub32 p.1.range.start.column 1 = p.1.range.start.column - 1 :=
      wsub32_eq_sub _ _ hc2 (by norm_num) hc1
    have hlineLt : p.1.range.start.line - 1 < 2 ^ 32 := by omega
    have hchLt : p.1.range.start.column - 1 < 2 ^ 32 := by omega
    have hrest := ih (p.1.range.start.line - 1) (p.1.range.start.column - 1)
      hlineLt hchLt (fun q hq => hcoords q (by simp [hq])) hchain'
      (fun q hq => hheadr q hq)
    rcases hhd with hlt | ⟨heq, hle⟩
    · -- previous token on an earlier line: deltaLine > 0, deltaStart absolute
      have hdl : wsub32 (p.1.range.start.line - 1) prevLine
          = p.1.range.start.line - 1 - prevLine :=
        wsub32_eq_sub _ _ hlineLt hpl (by omega)
      have hne : ¬(p.1.range.start.line - 1 - prevLine = 0) := by omega
      simp only [semTokGo, hline, hch, hdl, if_neg hne]
      constructor
      · simp only [List.length_cons, hrest.1]
        omega
      · simp only [decodeSemanticTokens, if_neg hne]
        have hl : prevLine + (p.1.range.start.line - 1 - prevLine)
            = p.1.range.start.line - 1 := by omega
        rw [hl, hrest.2]
        simp [startCoord]
    · -- same line: deltaLine = 0, deltaStart relative to the previous column
      have hdl : wsub32 (p.1.range.start.line - 1) prevLine = 0 := by
        rw [wsub32_eq_sub _ _ hlineLt hpl (by omega)]
        omega
      have hds : wsub32 (p.1.range.start.column - 1) prevChar
          = p.1.range.start.column - 1 - prevChar :=
        wsub32_eq_sub _ _ hchLt hpc hle
      simp only [semTokGo, hline, hch, hdl, if_pos rfl, hds]
      constructor
      · simp only [List.length_cons, hrest.1]
        omega
      · have hc : prevChar + (p.1.range.start.column - 1 - prevChar)
            = p.1.range.start.column - 1 := by omega
        simp only [decodeSemanticTokens]
        simp [hc, hrest.2, startCoord]
        rw [heq]
        exact ⟨hrest.2, rfl⟩

theorem tokenOrder_startCoord {x y : IdentifierNode × Nat}
    (hx : 1 ≤ x.1.range.start.line) (h : tokenOrder x y) :
    coordLe (startCoord x) (startCoord y) := by
  unfold tokenOrder rangeKeyLe at h
  unfold coordLe startCoord
  split_ifs at h <;> simp only [decide_eq_true_eq] at h <;> simp <;> omega

theorem chain'_coordLe_of_sorted (l : List (IdentifierNode × Nat))
    (hb : ∀ p ∈ l, 1 ≤ p.1.range.start.line)
    (hs : List.Chain' tokenOrder l) :
    List.Chain' coordLe (l.map startCoord) := by
  induction l with
  | nil => simp
  | cons p rest ih =>
    rcases rest with _ | ⟨q, rest2⟩
    · simp
    · rw [List.map_cons, List.map_cons, List.chain'_cons]
      rw [List.chain'_cons] at hs
      refine ⟨tokenOrder_startCoord (hb p (by simp)) hs.1, ?_⟩
      have hrec := ih (fun r hr => hb r (by simp at hr ⊢; tauto)) hs.2
      simpa using hrec

/-- C4: the emitted stream has five words per identifier, its
decoded absolute 0-based coordinates are exactly the sorted identifiers'
starts, and those coordinates are lexicographically non-decreasing
(in particular no `u32` subtraction wraps). -/
theorem c4_semantic_tokens (identifiers : List (IdentifierNode × Nat))
    (hcoords : ∀ p ∈ identifiers, 1 ≤ p.1.range.start.line ∧
      p.1.range.start.line < 2 ^ 32 ∧
      1 ≤ p.1.range.start.column ∧ p.1.range.start.column < 2 ^ 32) :
    (convertIdentifiersToSemanticTokens identifiers).length = 5 * identifiers.length ∧
    decodeSemanticTokens (convertIdentifiersToSemanticTokens identifiers) 0 0 =
      some ((List.insertionSort tokenOrder identifiers).map startCoord) ∧
    List.Chain' coordLe ((List.insertionSort tokenOrder identifiers).map startCoord) := by
  have hperm := List.perm_insertionSort tokenOrder identifiers
  have hmem : ∀ p ∈ List.insertionSort tokenOrder identifiers, p ∈ identifiers :=
    fun p hp => hperm.mem_iff.mp hp
  have hsorted : List.Chain' tokenOrder (List.insertionSort tokenOrder identifiers) :=
    (List.sorted_insertionSort tokenOrder identifiers).chain'
  have hchain := chain'_coordLe_of_sorted _ (fun p hp => (hcoords p (hmem p hp)).1) hsorted
  have hspec := semTokGo_spec (List.insertionSort tokenOrder identifiers) 0 0
    (by norm_num) (by norm_num) (fun p hp => hcoords p (hmem p hp)) hchain
    (by
      intro q _
      rcases q with ⟨a, b⟩
      unfold coordLe
      rcases Nat.eq_zero_or_pos a with rfl | hpos
      · exact Or.inr ⟨rfl, Nat.zero_le _⟩
      · exact Or.inl hpos)
  refine ⟨?_, hspec.2, hchain⟩
  unfold convertIdentifiersToSemanticTokens
  rw [hspec.1, hperm.length_eq]

/-- C4 witness: the claim theorem applied to a concrete two-identifier
list. -/
theorem c4_witness :
    (∀ p ∈ c4Ids, 1 ≤ p.1.range.start.line ∧ p.1.range.start.line < 2 ^ 32 ∧
      1 ≤ p.1.range.start.column ∧ p.1.range.start.column < 2 ^ 32) ∧
    ((convertIdentifiersToSemanticTokens c4Ids).length = 5 * c4Ids.length ∧
     decodeSemanticTokens (convertIdentifiersToSemanticTokens c4Ids) 0 0 =
       some ((List.insertionSort tokenOrder c4Ids).map startCoord) ∧
     List.Chain' coordLe ((List.insertionSort tokenOrder c4Ids).map startCoord)) :=
  ⟨by decide, c4_semantic_tokens c4Ids (by decide)⟩

/-- C10: at a `parse_identifier` position, a non-`Identifier` token whose
printable text maps back through `TokenKind::from_string` (keywords, base
types, namespace scopes) is accepted as an `IdentifierNode` carrying that
text; a token outside the table yields an "Invalid identifier" error and
the Rust `None` return. -/
theorem c10_parse_identifier_keywords (input : List Char) (ps : PState)
    (token : Token) (ps2 : PState)
    (hnext : nextToken input ps = some (token, ps2))
    (hnotid : ∀ s, token.kind ≠ TokenKind.Identifier s) :
    ((TokenKind.fromString token.kind.display).isSome = true →
      parseIdentifier input ps = some (some ⟨token.range, token.kind.display⟩, ps2)) ∧
    ((TokenKind.fromString token.kind.display).isSome = false →
      parseIdentifier input ps =
        some (none, { ps2 with errors := ps2.errors ++
            [⟨token.range, "Invalid identifier: " ++ token.kind.display⟩] })) := by
  constructor
  · intro h
    obtain ⟨v, hv⟩ := Option.isSome_iff_exists.mp h
    unfold parseIdentifier
    rw [hnext]
    cases hk : token.kind <;> (try exact absurd hk (hnotid _)) <;>
      rw [hk] at hv <;> simp [hk, hv]
  · intro h
    have hn : TokenKind.fromString token.kind.display = none := by
      rcases ho : TokenKind.fromString token.kind.display with _ | v
      · rfl
      · rw [ho] at h
        simp at h
    unfold parseIdentifier
    rw [hnext]
    cases hk : token.kind <;> (try exact absurd hk (hnotid _)) <;>
      rw [hk] at hn <;> simp [hk, hn]

/-- C10 witness: parsing the keyword buffer `struct` as an identifier
succeeds with name `"struct"`. -/
theorem c10_witness :
    nextToken c10Input c10PS = some (c10Tok, c10PS2) ∧
    (TokenKind.fromString c10Tok.kind.display).isSome = true ∧
    parseIdentifier c10Input c10PS
      = some (some ⟨c10Tok.range, c10Tok.kind.display⟩, c10PS2) :=
  ⟨rfl, rfl,
    (c10_parse_identifier_keywords c10Input c10PS c10Tok c10PS2 rfl
      (fun _ h => TokenKind.noConfusion h)).1 rfl⟩

/-- C9 counterexample: with `p` including `e` and `e` including `p` twice,
the first `sync_document(p)` leaves a "Circular dependency detected: e"
error on `p` (via the `visited.remove` bug and a re-entrant parse of `p`),
but a second identical sync leaves `p`'s error list empty — `sync_document`
is not idempotent. -/
theorem c9_counterexample :
    ((syncDocument envC9 9 "p" ['p'] initAState).bind
        (fun st1 => syncDocument envC9 9 "p" ['p'] st1)).map (fun st => st.errors "p")
      ≠ (syncDocument envC9 9 "p" ['p'] initAState).map (fun st => st.errors "p") := by
  decide

theorem pushList_append (path : String) (a b : List Error) (st : AState) :
    pushList path (a ++ b) st = pushList path b (pushList path a st) := by
  unfold pushList
  rw [List.foldl_append]

theorem pushErrs_pushErrs (st : AState) (path : String) (a b : List Error) :
    pushErrs (pushErrs st path a) path b = pushErrs st path (a ++ b) := by
  unfold pushErrs
  simp only [fupd]
  congr 1
  funext x
  by_cases hx : x = path <;> simp [hx, fupd]

theorem pushList_eq_pushErrs (path : String) (es : List Error) (st : AState)
    (hne : es ≠ []) : pushList path es st = pushErrs st path es := by
  induction es generalizing st with
  | nil => exact absurd rfl hne
  | cons e rest ih =>
    by_cases hr : rest = []
    · subst hr
      simp [pushList]
    · show pushList path rest (pushErrs st path [e]) = _
      rw [ih (pushErrs st path [e]) hr, pushErrs_pushErrs]
      rfl

theorem fieldsCheckGo_eq (path : String) (fields : List FieldNode) :
    ∀ (ids : List Int) (names : List String) (st : AState),
    fieldsCheckGo path fields ids names st
      = pushList path (fieldsCheckErrsGo fields ids names) st := by
  induction fields with
  | nil => intro ids names st; rfl
  | cons f rest ih =>
    intro ids names st
    simp only [fieldsCheckGo, fieldsCheckErrsGo]
    rw [pushList_append, pushList_append]
    rcases hfid : f.fieldId with _ | fid
    · by_cases hn : List.contains names f.identifier.name <;>
        simp only [hn, ite_true, ite_false] <;> rw [ih] <;> rfl
    · by_cases hid : List.contains ids fid.id <;>
        by_cases hn : List.contains names f.identifier.name <;>
        simp only [hid, hn, ite_true, ite_false] <;> rw [ih] <;> rfl

theorem functionsCheckGo_eq (path : String) (functions : List FunctionNode) :
    ∀ (names : List String) (st : AState),
    functionsCheckGo path functions names st
      = pushList path (functionsCheckErrsGo functions names) st := by
  induction functions with
  | nil => intro names st; rfl
  | cons fn rest ih =>
    intro names st
    simp only [functionsCheckGo, functionsCheckErrsGo]
    rw [pushList_append, pushList_append]
    unfold fieldsCheck
    rw [fieldsCheckGo_eq]
    by_cases hn : List.contains names fn.identifier.name <;>
      simp only [hn, ite_true, ite_false] <;> rw [ih] <;> rfl

theorem documentCheckGo_eq (path : String) (defs : List DefinitionNode) :
    ∀ (st : AState),
    documentCheckGo path defs st = pushList path (documentCheckErrsGo defs) st := by
  induction defs with
  | nil => intro st; rfl
  | cons d rest ih =>
    intro st
    simp only [documentCheckGo, documentCheckErrsGo]
    rw [pushList_append]
    cases d <;>
      simp only [] <;>
      rw [ih] <;>
      first
        | rfl
        | (unfold fieldsCheck; rw [fieldsCheckGo_eq])
        | (unfold functionsCheck; rw [functionsCheckGo_eq])

theorem documentCheck_eq (path : String) (document : DocumentNode) (st : AState) :
    documentCheck path document st = pushList path (documentCheckErrs document) st := by
  unfold documentCheck documentCheckErrs
  exact documentCheckGo_eq path document.definitions st

theorem fupd_same {α : Type} (f : String → α) (k : String) (v : α) : fupd f k v k = v := by
  simp [fupd]

theorem fupd_fupd {α : Type} (f : String → α) (k : String) (a b : α) :
    fupd (fupd f k a) k b = fupd f k b := by
  funext x
  by_cases hx : x = k <;> simp [fupd, hx]

theorem fupd_self {α : Type} (f : String → α) (k : String) : fupd f k (f k) = f := by
  funext x
  by_cases hx : x = k <;> simp [fupd, hx]

theorem pushList_entry (path : String) (es : List Error) :
    ∀ (st : AState) (base : List Error), st.errors path = some base →
    pushList path es st = { st with errors := fupd st.errors path (some (base ++ es)) } := by
  induction es with
  | nil =>
    intro st base hbase
    show st = _
    rw [List.append_nil, ← hbase, fupd_self]
  | cons e rest ih =>
    intro st base hbase
    show pushList path rest (pushErrs st path [e]) = _
    rw [ih (pushErrs st path [e]) (base ++ [e])
      (by simp [pushErrs, fupd_same, hbase])]
    simp [pushErrs, fupd_fupd]

theorem sync_noInclude_eq (env : Env) (f : Nat) (path : String) (content : List Char)
    (st : AState)
    (hdeps : dependenciesOf env path (env.parse content).1 = []) :
    syncDocument env (f + 1 + 1) path content st = some (syncResult env path content st) := by
  unfold syncDocument analyze
  simp only [parseDocument, List.contains, List.elem_nil, Bool.false_eq_true, if_false,
    fupd_same, Option.isSome_none, depLoop, hdeps]
  simp only [pushErrs, fupd_fupd, fupd_same, Option.getD_none, List.nil_append,
    staticCheck, documentCheck_eq, Option.getD_some]
  rw [pushList_entry _ _ _
    ((env.parse content).2 ++ (syncTable env path content).errors)
    (by simp [fupd_same, syncTable])]
  simp only [generateSemanticTokens, fupd_same, fupd_fupd]
  simp only [syncResult, syncTable, syncTokens, List.append_assoc]

theorem fupd_ne {α : Type} (f : String → α) (k x : String) (v : α) (h : x ≠ k) :
    fupd f k v x = f x := by
  simp [fupd, h]

/-- C9 (amended): `sync_document` is idempotent for a document whose parse
yields no include dependencies — a second identical sync returns exactly the
state the first one produced.  (With includes it can differ: see
`c9_counterexample`.) -/
theorem c9_sync_idempotent (env : Env) (fuel : Nat) (path : String) (content : List Char)
    (st st1 : AState)
    (hdeps : dependenciesOf env path (env.parse content).1 = [])
    (h1 : syncDocument env fuel path content st = some st1) :
    syncDocument env fuel path content st1 = some st1 := by
  match fuel with
  | 0 => exact absurd h1 (by simp [syncDocument, analyze, parseDocument])
  | 1 =>
    refine absurd (show syncDocument env (0 + 1) path content st = some st1 from h1) ?_
    simp [syncDocument, analyze, parseDocument, fupd_same, hdeps, depLoop]
  | f + 2 =>
    have h2 : syncDocument env (f + 1 + 1) path content st = some st1 := h1
    rw [sync_noInclude_eq env f path content st hdeps] at h2
    injection h2 with h2
    subst h2
    show syncDocument env (f + 1 + 1) path content _ = _
    rw [sync_noInclude_eq env f path content _ hdeps]
    congr 1
    simp only [syncResult, fupd_fupd]

/-- C9 witness: the amended idempotence applied to a concrete
document without includes. -/
theorem c9_sync_idempotent_witness :
    dependenciesOf c9wEnv "p" (c9wEnv.parse ['x']).1 = [] ∧
    syncDocument c9wEnv 2 "p" ['x'] initAState
      = some (syncResult c9wEnv "p" ['x'] initAState) ∧
    syncDocument c9wEnv 2 "p" ['x'] (syncResult c9wEnv "p" ['x'] initAState)
      = some (syncResult c9wEnv "p" ['x'] initAState) :=
  ⟨rfl, sync_noInclude_eq c9wEnv 0 "p" ['x'] initAState rfl,
    c9_sync_idempotent c9wEnv 2 "p" ['x'] initAState _ rfl
      (sync_noInclude_eq c9wEnv 0 "p" ['x'] initAState rfl)⟩

/-- C5: syncing a document `x` that includes `y` while `y` includes `x` back,
both parsing cleanly with no definitions, reports exactly one error: a
"Circular dependency detected: x" on `y` (the file whose include closes the
cycle) at the range of that include header; `x` ends with an empty error
list and no other path has an entry. -/
theorem c5_circular_dependency (env : Env) (f : Nat) (x y : String)
    (cx cy : List Char) (dx dy : DocumentNode) (incx incy : IncludeNode)
    (px py : String)
    (hxy : x ≠ y)
    (hparsex : env.parse cx = (dx, []))
    (hparsey : env.parse cy = (dy, []))
    (hdx : dx.headers = [HeaderNode.Include incx])
    (hdxd : dx.definitions = [])
    (hdy : dy.headers = [HeaderNode.Include incy])
    (hdyd : dy.definitions = [])
    (hppx : env.pathParent x = some px)
    (hjx : env.pathJoin px incx.literal = y)
    (hppy : env.pathParent y = some py)
    (hjy : env.pathJoin py incy.literal = x)
    (hready : env.readFile y = Except.ok cy) :
    ((syncDocument env (f + 1 + 1 + 1 + 1 + 1) x cx initAState).map
        (fun stF => stF.errors y))
      = some (some [⟨incy.range, "Circular dependency detected: " ++ x⟩]) ∧
    ((syncDocument env (f + 1 + 1 + 1 + 1 + 1) x cx initAState).map
        (fun stF => stF.errors x)) = some (some []) ∧
    ∀ p, p ≠ x → p ≠ y →
      ((syncDocument env (f + 1 + 1 + 1 + 1 + 1) x cx initAState).map
          (fun stF => stF.errors p)) = some none := by
  have hbxy : (x == y) = false := beq_eq_false_iff_ne.mpr hxy
  have hbyx : (y == x) = false := beq_eq_false_iff_ne.mpr (Ne.symm hxy)
  have hfyx : ∀ {α : Type} (g : String → α) (v : α), fupd g y v x = g x :=
    fun g v => fupd_ne g y x v hxy
  have hfxy : ∀ {α : Type} (g : String → α) (v : α), fupd g x v y = g y :=
    fun g v => fupd_ne g x y v (Ne.symm hxy)
  have hm1 : decide (x ∈ ([] : List String)) = false := by simp
  have hm2 : decide (y ∈ [x]) = false := by simp [Ne.symm hxy]
  have hm3 : decide (x ∈ [y, x]) = true := by simp
  unfold syncDocument analyze
  simp only [parseDocument, List.contains, List.elem_eq_mem,
    fupd_same, hparsex, hdx, hdxd, hppx, hjx, hppy, hjy, hready, hparsey, hdy, hdyd,
    hbxy, hbyx, hfyx, hfxy, hm1, hm2, hm3, dependenciesOf, List.filterMap_cons,
    List.filterMap_nil, depLoop, initAState, Option.isSome_none, Option.getD_none,
    List.nil_append, Bool.false_eq_true, if_false, if_true, ite_true, ite_false,
    pushErrs, fupd_fupd, Option.getD_some, List.append_nil,
    List.erase_cons, beq_self_eq_true]
  refine ⟨?_, ?_, ?_⟩
  · simp [staticCheck, generateSemanticTokens, SymbolTable.checkDocumentTypes, hdxd,
      SymbolTable.newFromAst, SymbolTable.addDependency, pushTableErrors,
      SymbolTable.errors, mapInsert, documentCheck, documentCheckGo, pushErrs,
      fupd_same, fupd_fupd, hfyx, hfxy, List.foldl_nil, HeaderNode.range]
  · simp [staticCheck, generateSemanticTokens, SymbolTable.checkDocumentTypes, hdxd,
      SymbolTable.newFromAst, SymbolTable.addDependency, pushTableErrors,
      SymbolTable.errors, mapInsert, documentCheck, documentCheckGo, pushErrs,
      fupd_same, fupd_fupd, hfyx, hfxy, List.foldl_nil]
  · intro p hp hpy
    have hgp1 : ∀ {α : Type} (g : String → α) (v : α), fupd g x v p = g p :=
      fun g v => fupd_ne g x p v hp
    have hgp2 : ∀ {α : Type} (g : String → α) (v : α), fupd g y v p = g p :=
      fun g v => fupd_ne g y p v hpy
    simp [staticCheck, generateSemanticTokens, SymbolTable.checkDocumentTypes, hdxd,
      SymbolTable.newFromAst, SymbolTable.addDependency, pushTableErrors,
      SymbolTable.errors, mapInsert, documentCheck, documentCheckGo, pushErrs,
      fupd_same, fupd_fupd, hfyx, hfxy, hgp1, hgp2, List.foldl_nil]

/-- C5 witness: the claim theorem applied to a concrete mutually-including
pair. -/
theorem c5_circular_dependency_witness :
    "x" ≠ "y" ∧
    ((syncDocument c5Env (0 + 1 + 1 + 1 + 1 + 1) "x" ['x'] initAState).map
        (fun stF => stF.errors "y"))
      = some (some [⟨c5IncY.range, "Circular dependency detected: " ++ "x"⟩]) ∧
    ((syncDocument c5Env (0 + 1 + 1 + 1 + 1 + 1) "x" ['x'] initAState).map
        (fun stF => stF.errors "x")) = some (some []) ∧
    ∀ p, p ≠ "x" → p ≠ "y" →
      ((syncDocument c5Env (0 + 1 + 1 + 1 + 1 + 1) "x" ['x'] initAState).map
          (fun stF => stF.errors p)) = some none :=
  ⟨by decide,
    c5_circular_dependency c5Env 0 "x" "y" ['x'] ['y'] c5Dx c5Dy c5IncX c5IncY "." "."
      (by decide) rfl rfl rfl rfl rfl rfl rfl rfl rfl rfl rfl⟩

/-- C6 witness: the claim theorem applied to two structs named `S`. -/
theorem c6_witness :
    c6Doc.definitions = [c6S1, c6S2] ∧ c6S2.name = c6S1.name ∧
    ((SymbolTable.newFromAst "w.thrift" c6Doc).errors =
        [{ range := c6S2.range, message := "Duplicate definition: " ++ c6S2.name }] ∧
      (SymbolTable.newFromAst "w.thrift" c6Doc).types = [(c6S1.name, c6S1)] ∧
      (SymbolTable.newFromAst "w.thrift" c6Doc).types.lookup c6S1.name = some c6S1) :=
  ⟨rfl, rfl, c6_duplicate_definition "w.thrift" c6Doc c6S1 c6S2 rfl rfl⟩

/-- C3 witness: the amended theorem applied to a state in which `a.Foo`
resolves through include `a` to a typedef. -/
theorem c3_witness :
    c3wSt.documentNodes "m.thrift" = some c3Doc ∧
    findIdentifier c3Doc c3Pos = some c3Idn ∧
    c3wSt.symbolTables "m.thrift" = some c3wTable ∧
    c3wTable.findDefinitionOfIdentifierType c3Idn
      = some ("a.thrift", c3wTypedef, some c3Hdr) ∧
    c3Idn.positionInNamespace c3Pos = true ∧
    Analyzer.definition c3wSt "m.thrift" c3Pos
      = some { path := "m.thrift", range := c3Hdr.range } :=
  ⟨rfl, rfl, rfl, rfl, rfl,
    c3_definition_namespace_prefix c3wSt "m.thrift" c3Pos c3Doc c3Idn c3wTable
      "a.thrift" c3wTypedef c3Hdr rfl rfl rfl rfl rfl⟩

end Thrift
